import Mathlib

/-
Verification of the qpx conversion pipeline (MaxQuant converter and intensity
utilities) against its natural-language specification.

The Python source is shallowly embedded:
  * Python floats are modelled by `PFloat`, either NaN or an exact rational
    value (float32 rounding is abstracted away; the properties below are about
    the algorithms, with real-number arithmetic).
  * pandas DataFrames are modelled by `DF`, an ordered association list of
    named columns of cells.
  * the chunked parallel file processor is modelled by explicit chunking,
    an arbitrary completion order, and an index-sorted merge.
-/

set_option maxHeartbeats 1000000

namespace Qpx

/-- A Python float: NaN or an exact value (rounding abstracted). -/
inductive PFloat where
  | nan : PFloat
  | val (q : ℚ) : PFloat
deriving DecidableEq, Repr

namespace PFloat

/-- `math.isnan`. -/
def isNaN : PFloat → Bool
  | .nan => true
  | .val _ => false

/-- Python `x >= y` on floats: any comparison with NaN is False. -/
def pfGe : PFloat → PFloat → Bool
  | .val a, .val b => decide (b ≤ a)
  | _, _ => false

/-- Python `x < y` on floats: any comparison with NaN is False. -/
def pfLt : PFloat → PFloat → Bool
  | .val a, .val b => decide (a < b)
  | _, _ => false

/-- Float addition; NaN is absorbing. -/
def add : PFloat → PFloat → PFloat
  | .val a, .val b => .val (a + b)
  | _, _ => .nan

end PFloat

/-- Python `sum(xs)` over a list of floats (the accumulator starts at 0). -/
def pfSum (l : List PFloat) : PFloat :=
  l.foldl PFloat.add (.val 0)

/-- From src/qpx/utils/intensity_utils.py, `calculate_total_all_peptides_intensity`:
sum of all valid (non-NaN, non-negative) intensities; NaN if the list is empty
or contains no valid value. -/
def calculate_total_all_peptides_intensity (peptide_intensities : List PFloat) : PFloat :=
  if peptide_intensities.isEmpty then .nan
  else
    let valid := peptide_intensities.filter
      (fun intensity => !intensity.isNaN && intensity.pfGe (.val 0))
    if valid.isEmpty then .nan else pfSum valid

/-- The dictionary update `peptide_totals[seq] += intensity` /
`peptide_totals[seq] = intensity` of `calculate_top3_peptide_intensity`,
as an insertion-ordered association list. -/
def insertAdd (acc : List (String × ℚ)) (k : String) (q : ℚ) : List (String × ℚ) :=
  if acc.any (fun p => p.1 = k) then
    acc.map (fun p => if p.1 = k then (p.1, p.2 + q) else p)
  else acc ++ [(k, q)]

/-- One iteration of the aggregation loop of `calculate_top3_peptide_intensity`:
a pair with a null sequence, a NaN intensity or a negative intensity is
skipped, any other pair is accumulated by peptide sequence. -/
def top3Step (acc : List (String × ℚ)) (sp : Option String × PFloat) :
    List (String × ℚ) :=
  match sp with
  | (none, _) => acc
  | (some _, .nan) => acc
  | (some k, .val q) => if q < 0 then acc else insertAdd acc k q

/-- The aggregation loop of `calculate_top3_peptide_intensity`. -/
def buildPeptideTotals (pairs : List (Option String × PFloat)) : List (String × ℚ) :=
  pairs.foldl top3Step []

/-- Python `sorted(xs, reverse=True)` on rationals. -/
def sortDescRat (l : List ℚ) : List ℚ :=
  l.insertionSort (· ≥ ·)

/-- From src/qpx/utils/intensity_utils.py, `calculate_top3_peptide_intensity`:
aggregate intensities by peptide sequence, then sum the three largest
aggregated totals. NaN on empty inputs, mismatched lengths or when nothing
survives the validity filter. -/
def calculate_top3_peptide_intensity
    (peptide_sequences : List (Option String)) (intensities : List PFloat) : PFloat :=
  if peptide_sequences.isEmpty || intensities.isEmpty then .nan
  else if peptide_sequences.length ≠ intensities.length then .nan
  else
    let totals := buildPeptideTotals (peptide_sequences.zip intensities)
    if totals.isEmpty then .nan
    else .val ((sortDescRat (totals.map Prod.snd)).take 3).sum

/-- The rational values of the valid (non-NaN, non-negative) entries of a
float list, in order. -/
def validRats (l : List PFloat) : List ℚ :=
  l.filterMap (fun x =>
    match x with
    | .nan => none
    | .val q => if 0 ≤ q then some q else none)

lemma filter_valid_eq (l : List PFloat) :
    l.filter (fun i => !i.isNaN && i.pfGe (.val 0)) = (validRats l).map PFloat.val := by
  induction l with
  | nil => rfl
  | cons x xs ih =>
    cases x with
    | nan => simpa [validRats, List.filter, PFloat.isNaN, PFloat.pfGe, List.filterMap]
        using ih
    | val q =>
      by_cases hq : 0 ≤ q
      · simpa [validRats, List.filter, PFloat.isNaN, PFloat.pfGe, List.filterMap, hq]
          using ih
      · simpa [validRats, List.filter, PFloat.isNaN, PFloat.pfGe, List.filterMap, hq]
          using ih

lemma foldl_add_map_val (qs : List ℚ) : ∀ a : ℚ,
    (qs.map PFloat.val).foldl PFloat.add (.val a) = .val (a + qs.sum) := by
  induction qs with
  | nil => intro a; simp [PFloat.add]
  | cons q qs ih =>
    intro a
    simp only [List.map_cons, List.foldl_cons, PFloat.add, List.sum_cons]
    rw [ih]
    ring_nf

lemma pfSum_map_val (qs : List ℚ) : pfSum (qs.map PFloat.val) = .val qs.sum := by
  simpa using foldl_add_map_val qs 0

lemma validRats_map_val (qs : List ℚ) (h : ∀ q ∈ qs, 0 ≤ q) :
    validRats (qs.map PFloat.val) = qs := by
  induction qs with
  | nil => rfl
  | cons q qs ih =>
    have hq : 0 ≤ q := h q (by simp)
    simp only [validRats, List.map_cons, List.filterMap_cons, hq, if_pos]
    exact congrArg (q :: ·) (ih (fun q hq => h q (by simp [hq])))

/-- C6: `calculate_total_all_peptides_intensity([])` is NaN; on any non-empty
list of non-negative, non-NaN floats it returns exactly their sum; negative
and NaN entries are excluded from the sum (whenever at least one valid entry
remains, the result is the sum of exactly the valid entries). -/
theorem total_intensity_spec :
    calculate_total_all_peptides_intensity [] = .nan
    ∧ (∀ l : List PFloat, validRats l ≠ [] →
        calculate_total_all_peptides_intensity l = .val (validRats l).sum)
    ∧ (∀ qs : List ℚ, qs ≠ [] → (∀ q ∈ qs, 0 ≤ q) →
        calculate_total_all_peptides_intensity (qs.map PFloat.val) = .val qs.sum) := by
  have main : ∀ l : List PFloat, validRats l ≠ [] →
      calculate_total_all_peptides_intensity l = .val (validRats l).sum := by
    intro l hvr
    have hl : l ≠ [] := by
      rintro rfl; exact hvr rfl
    have hfilter := filter_valid_eq l
    unfold calculate_total_all_peptides_intensity
    rw [if_neg (by simpa [List.isEmpty_iff] using hl)]
    simp only [hfilter]
    rw [if_neg (by simpa [List.isEmpty_iff] using hvr)]
    exact pfSum_map_val _
  refine ⟨rfl, main, ?_⟩
  intro qs hqs hpos
  have hv := validRats_map_val qs hpos
  have := main (qs.map PFloat.val) (by rw [hv]; exact hqs)
  rwa [hv] at this

/-- Witness for C6 at concrete inputs: the NaN and the negative entry are
excluded, leaving 1 + 3 = 4; an all-valid list sums exactly. -/
theorem total_intensity_witness :
    calculate_total_all_peptides_intensity
      [.val 1, .nan, .val (-2), .val 3] = .val 4
    ∧ calculate_total_all_peptides_intensity ([2, 3].map PFloat.val) = .val 5 := by
  constructor
  · have h := total_intensity_spec.2.1 [.val 1, .nan, .val (-2), .val 3] (by decide)
    rw [h]
    norm_num [validRats, List.filterMap_cons, List.filterMap_nil]
  · have h := total_intensity_spec.2.2 [2, 3] (List.cons_ne_nil _ _) (by norm_num)
    rw [h]
    norm_num

/-- Helper: the aggregation loop of `calculate_top3_peptide_intensity` keeps
nothing when every intensity is NaN or negative. -/
lemma buildPeptideTotals_invalid (pairs : List (Option String × PFloat))
    (h : ∀ p ∈ pairs, p.2.isNaN = true ∨ p.2.pfLt (.val 0) = true) :
    buildPeptideTotals pairs = [] := by
  have gen : ∀ (ps : List (Option String × PFloat)) (acc : List (String × ℚ)),
      (∀ p ∈ ps, p.2.isNaN = true ∨ p.2.pfLt (.val 0) = true) →
      ps.foldl top3Step acc = acc := by
    intro ps
    induction ps with
    | nil => intro acc _; rfl
    | cons p ps ih =>
      intro acc hp
      obtain ⟨s, x⟩ := p
      have hx := hp (s, x) (by simp)
      cases s with
      | none => exact ih acc (fun p hmem => hp p (by simp [hmem]))
      | some k =>
        cases x with
        | nan => exact ih acc (fun p hmem => hp p (by simp [hmem]))
        | val q =>
          have hq : q < 0 := by
            rcases hx with hx | hx
            · simp [PFloat.isNaN] at hx
            · simpa [PFloat.pfLt] using hx
          rw [List.foldl_cons]
          rw [show top3Step acc (some k, PFloat.val q)
              = if q < 0 then acc else insertAdd acc k q from rfl]
          rw [if_pos hq]
          exact ih acc (fun p hmem => hp p (by simp [hmem]))
  exact gen pairs [] h

/-- C10: both intensity functions are total and return NaN (never 0, never an
exception) when no valid entry remains: the empty list, a list whose entries
are all NaN or negative, and, for `calculate_top3_peptide_intensity`, empty or
length-mismatched inputs. -/
theorem intensity_degenerate_nan :
    (∀ l : List PFloat, l ≠ [] →
        (∀ x ∈ l, x.isNaN = true ∨ x.pfLt (.val 0) = true) →
        calculate_total_all_peptides_intensity l = .nan)
    ∧ (∀ ints : List PFloat, calculate_top3_peptide_intensity [] ints = .nan)
    ∧ (∀ seqs : List (Option String), calculate_top3_peptide_intensity seqs [] = .nan)
    ∧ (∀ (seqs : List (Option String)) (ints : List PFloat),
        seqs.length ≠ ints.length → calculate_top3_peptide_intensity seqs ints = .nan)
    ∧ (∀ (seqs : List (Option String)) (ints : List PFloat),
        (∀ x ∈ ints, x.isNaN = true ∨ x.pfLt (.val 0) = true) →
        calculate_top3_peptide_intensity seqs ints = .nan) := by
  refine ⟨?_, ?_, ?_, ?_, ?_⟩
  · intro l hl hbad
    have hvr : validRats l = [] := by
      rw [validRats, List.filterMap_eq_nil_iff]
      intro x hx
      rcases hbad x hx with hnan | hneg
      · cases x with
        | nan => rfl
        | val q => simp [PFloat.isNaN] at hnan
      · cases x with
        | nan => rfl
        | val q =>
          have : q < 0 := by simpa [PFloat.pfLt] using hneg
          simp [this.not_le]
    have hfilter := filter_valid_eq l
    unfold calculate_total_all_peptides_intensity
    rw [if_neg (by simpa [List.isEmpty_iff] using hl)]
    simp [hfilter, hvr]
  · intro ints; rfl
  · intro seqs; simp [calculate_top3_peptide_intensity]
  · intro seqs ints hlen
    unfold calculate_top3_peptide_intensity
    rcases seqs with _ | ⟨s, seqs⟩
    · rfl
    rcases ints with _ | ⟨x, ints⟩
    · rfl
    rw [if_neg (by simp), if_pos hlen]
  · intro seqs ints hbad
    unfold calculate_top3_peptide_intensity
    by_cases h1 : seqs.isEmpty || ints.isEmpty
    · rw [if_pos h1]
    rw [if_neg h1]
    by_cases h2 : seqs.length ≠ ints.length
    · rw [if_pos h2]
    rw [if_neg h2]
    have htot : buildPeptideTotals (seqs.zip ints) = [] := by
      refine buildPeptideTotals_invalid _ (fun p hp => ?_)
      exact hbad p.2 (List.of_mem_zip hp).2
    simp [htot]

/-- Witness for C10 at concrete inputs: an all-invalid list, a length
mismatch and an all-invalid intensity vector all yield NaN. -/
theorem intensity_degenerate_witness :
    calculate_total_all_peptides_intensity [.nan, .val (-1)] = .nan
    ∧ calculate_top3_peptide_intensity [some "A"] [.val 1, .val 2] = .nan
    ∧ calculate_top3_peptide_intensity [some "A", some "B"]
        [.nan, .val (-5)] = .nan := by
  refine ⟨?_, ?_, ?_⟩
  · exact intensity_degenerate_nan.1 [.nan, .val (-1)] (by decide) (by decide)
  · exact intensity_degenerate_nan.2.2.2.1 [some "A"] [.val 1, .val 2] (by decide)
  · exact intensity_degenerate_nan.2.2.2.2 [some "A", some "B"]
      [.nan, .val (-5)] (by decide)

/-- Specification-side: the total intensity contributed to key `k` by a list
of (sequence, intensity) pairs. -/
def sumForKey (k : String) (pairs : List (String × ℚ)) : ℚ :=
  ((pairs.filter (fun p => p.1 = k)).map Prod.snd).sum

/-- Specification-side: the distinct keys of a list, in first-occurrence
order, skipping keys already `seen`. -/
def firstOccurrences (seen : List String) : List String → List String
  | [] => []
  | k :: ks =>
    if k ∈ seen then firstOccurrences seen ks
    else k :: firstOccurrences (k :: seen) ks

/-- Specification-side: the per-sequence aggregated totals ("sum intensities
grouped by peptide sequence"), one per distinct sequence. -/
def perPeptideTotals (pairs : List (String × ℚ)) : List ℚ :=
  (firstOccurrences [] (pairs.map Prod.fst)).map (fun k => sumForKey k pairs)

/-- The plain accumulation fold over already-validated pairs. -/
def accumulateTotals (acc : List (String × ℚ)) (ps : List (String × ℚ)) :
    List (String × ℚ) :=
  ps.foldl (fun a p => insertAdd a p.1 p.2) acc

lemma sumForKey_nil (k : String) : sumForKey k [] = 0 := rfl

lemma sumForKey_cons (k : String) (p : String × ℚ) (ps : List (String × ℚ)) :
    sumForKey k (p :: ps) = (if p.1 = k then p.2 else 0) + sumForKey k ps := by
  by_cases h : p.1 = k
  · simp [sumForKey, List.filter_cons, h]
  · simp [sumForKey, List.filter_cons, h]

lemma mem_firstOccurrences_not_seen {seen : List String} {ks : List String}
    {k : String} (h : k ∈ firstOccurrences seen ks) : k ∉ seen := by
  induction ks generalizing seen with
  | nil => simp [firstOccurrences] at h
  | cons a ks ih =>
    by_cases ha : a ∈ seen
    · rw [firstOccurrences, if_pos ha] at h
      exact ih h
    · rw [firstOccurrences, if_neg ha] at h
      rcases List.mem_cons.mp h with rfl | h
      · exact ha
      · intro hk
        exact ih h (List.mem_cons_of_mem a hk)

lemma firstOccurrences_congr {s t : List String} (hst : ∀ x, x ∈ s ↔ x ∈ t) :
    ∀ ks, firstOccurrences s ks = firstOccurrences t ks := by
  intro ks
  induction ks generalizing s t with
  | nil => rfl
  | cons a ks ih =>
    by_cases ha : a ∈ s
    · rw [firstOccurrences, if_pos ha, firstOccurrences, if_pos ((hst a).mp ha)]
      exact ih hst
    · rw [firstOccurrences, if_neg ha,
        firstOccurrences, if_neg (fun h => ha ((hst a).mpr h))]
      refine congrArg (a :: ·) (ih ?_)
      intro x
      simp only [List.mem_cons, hst x]

lemma firstOccurrences_nodup (seen : List String) :
    ∀ ks, (firstOccurrences seen ks).Nodup := by
  intro ks
  induction ks generalizing seen with
  | nil => simp [firstOccurrences]
  | cons a ks ih =>
    by_cases ha : a ∈ seen
    · rw [firstOccurrences, if_pos ha]; exact ih seen
    · rw [firstOccurrences, if_neg ha]
      refine List.nodup_cons.mpr ⟨?_, ih (a :: seen)⟩
      intro hmem
      exact mem_firstOccurrences_not_seen hmem (by simp)

lemma insertAdd_map_fst (acc : List (String × ℚ)) (k : String) (q : ℚ) :
    (insertAdd acc k q).map Prod.fst
      = if acc.any (fun p => p.1 = k) then acc.map Prod.fst
        else acc.map Prod.fst ++ [k] := by
  by_cases h : acc.any (fun p => p.1 = k)
  · rw [insertAdd, if_pos h, if_pos h, List.map_map]
    refine List.map_congr_left (fun p _ => ?_)
    by_cases hp : p.1 = k <;> simp [hp]
  · rw [insertAdd, if_neg h, if_neg h, List.map_append]
    rfl

lemma accumulateTotals_spec (ps : List (String × ℚ)) : ∀ acc : List (String × ℚ),
    (acc.map Prod.fst).Nodup →
    accumulateTotals acc ps
      = acc.map (fun p => (p.1, p.2 + sumForKey p.1 ps))
        ++ (firstOccurrences (acc.map Prod.fst) (ps.map Prod.fst)).map
             (fun k => (k, sumForKey k ps)) := by
  induction ps with
  | nil =>
    intro acc _
    simp [accumulateTotals, sumForKey, firstOccurrences]
  | cons p0 rest ih =>
    obtain ⟨k0, q0⟩ := p0
    intro acc hnd
    have hstep : accumulateTotals acc ((k0, q0) :: rest)
        = accumulateTotals (insertAdd acc k0 q0) rest := rfl
    rw [hstep]
    by_cases hmem : acc.any (fun p => p.1 = k0) = true
    · have hk0 : k0 ∈ acc.map Prod.fst := by
        rcases List.any_eq_true.mp hmem with ⟨p, hp, hpk⟩
        exact List.mem_map.mpr ⟨p, hp, by simpa using hpk⟩
      have hkeys : (insertAdd acc k0 q0).map Prod.fst = acc.map Prod.fst := by
        rw [insertAdd_map_fst, if_pos hmem]
      have hins : insertAdd acc k0 q0
          = acc.map (fun p => if p.1 = k0 then (p.1, p.2 + q0) else p) := by
        rw [insertAdd, if_pos hmem]
      rw [ih (insertAdd acc k0 q0) (by rw [hkeys]; exact hnd), hkeys, hins,
        List.map_map]
      have hfirst : ∀ p : String × ℚ,
          ((fun p => (p.1, p.2 + sumForKey p.1 rest)) ∘
             fun p => if p.1 = k0 then (p.1, p.2 + q0) else p) p
            = (p.1, p.2 + sumForKey p.1 ((k0, q0) :: rest)) := by
        intro p
        by_cases hp : p.1 = k0
        · simp only [Function.comp, if_pos hp, sumForKey_cons]
          rw [if_pos hp.symm]
          simp [add_assoc]
        · simp only [Function.comp, if_neg hp, sumForKey_cons]
          rw [if_neg (fun h => hp h.symm)]
          simp
      have hsecond :
          (firstOccurrences (acc.map Prod.fst) (rest.map Prod.fst)).map
              (fun k => (k, sumForKey k rest))
            = (firstOccurrences (acc.map Prod.fst) (rest.map Prod.fst)).map
              (fun k => (k, sumForKey k ((k0, q0) :: rest))) := by
        refine List.map_congr_left (fun k hk => ?_)
        have hne : k ≠ k0 := by
          intro h
          exact mem_firstOccurrences_not_seen hk (h ▸ hk0)
        rw [sumForKey_cons, if_neg (fun h => hne h.symm), zero_add]
      rw [List.map_congr_left (fun p _ => hfirst p), hsecond]
      have hseen : firstOccurrences (acc.map Prod.fst)
            (((k0, q0) :: rest).map Prod.fst)
          = firstOccurrences (acc.map Prod.fst) (rest.map Prod.fst) := by
        rw [List.map_cons, firstOccurrences, if_pos hk0]
      rw [hseen]
    · have hk0 : k0 ∉ acc.map Prod.fst := by
        intro h
        rcases List.mem_map.mp h with ⟨p, hp, hpk⟩
        exact hmem (List.any_eq_true.mpr ⟨p, hp, by simpa using hpk⟩)
      have hins : insertAdd acc k0 q0 = acc ++ [(k0, q0)] := by
        rw [insertAdd, if_neg hmem]
      have hkeys : (insertAdd acc k0 q0).map Prod.fst
          = acc.map Prod.fst ++ [k0] := by
        rw [insertAdd_map_fst, if_neg hmem]
      have hnd2 : ((insertAdd acc k0 q0).map Prod.fst).Nodup := by
        rw [hkeys]
        simp only [List.nodup_append, List.nodup_cons, List.not_mem_nil,
          not_false_iff, List.nodup_nil, and_true, true_and]
        exact ⟨hnd, by simpa [List.disjoint_singleton] using hk0⟩
      rw [ih (insertAdd acc k0 q0) hnd2, hkeys, hins, List.map_append]
      have hmap : acc.map (fun p => (p.1, p.2 + sumForKey p.1 rest))
          = acc.map (fun p => (p.1, p.2 + sumForKey p.1 ((k0, q0) :: rest))) := by
        refine List.map_congr_left (fun p hp => ?_)
        have hne : p.1 ≠ k0 := by
          intro h
          exact hk0 (h ▸ List.mem_map.mpr ⟨p, hp, rfl⟩)
        rw [sumForKey_cons, if_neg (fun h => hne h.symm), zero_add]
      have hsingle : ([(k0, q0)].map (fun p => (p.1, p.2 + sumForKey p.1 rest)))
          = [(k0, sumForKey k0 ((k0, q0) :: rest))] := by
        simp [sumForKey_cons]
      have hseencongr : firstOccurrences (acc.map Prod.fst ++ [k0])
            (rest.map Prod.fst)
          = firstOccurrences (k0 :: acc.map Prod.fst) (rest.map Prod.fst) := by
        refine firstOccurrences_congr (fun x => ?_) _
        simp [or_comm]
      have hsecond :
          (firstOccurrences (k0 :: acc.map Prod.fst) (rest.map Prod.fst)).map
              (fun k => (k, sumForKey k rest))
            = (firstOccurrences (k0 :: acc.map Prod.fst) (rest.map Prod.fst)).map
              (fun k => (k, sumForKey k ((k0, q0) :: rest))) := by
        refine List.map_congr_left (fun k hk => ?_)
        have hne : k ≠ k0 := by
          have := mem_firstOccurrences_not_seen hk
          intro h
          exact this (h ▸ List.mem_cons_self k0 _)
        rw [sumForKey_cons, if_neg (fun h => hne h.symm), zero_add]
      rw [hmap, hsingle, hseencongr, hsecond]
      have hseen : firstOccurrences (acc.map Prod.fst)
            (((k0, q0) :: rest).map Prod.fst)
          = k0 :: firstOccurrences (k0 :: acc.map Prod.fst) (rest.map Prod.fst) := by
        rw [List.map_cons, firstOccurrences, if_neg hk0]
      rw [hseen, List.map_cons, List.append_assoc]
      rfl

lemma update_id (acc : List (String × ℚ)) (k : String) (q : ℚ)
    (hk : k ∉ acc.map Prod.fst) :
    acc.map (fun p => if p.1 = k then (p.1, p.2 + q) else p) = acc := by
  have hall : ∀ p ∈ acc, (if p.1 = k then (p.1, p.2 + q) else p) = p := by
    intro p hp
    rw [if_neg (fun h => hk (by rw [← h]; exact List.mem_map.mpr ⟨p, hp, rfl⟩))]
  simpa using List.map_congr_left hall

lemma sum_snd_update (acc : List (String × ℚ)) (k : String) (q : ℚ) :
    (acc.map Prod.fst).Nodup → k ∈ acc.map Prod.fst →
    (((acc.map (fun p => if p.1 = k then (p.1, p.2 + q) else p)).map
      Prod.snd).sum)
      = (acc.map Prod.snd).sum + q := by
  induction acc with
  | nil => intro _ hk; simp at hk
  | cons p rest ih =>
    intro hnd hk
    rw [List.map_cons] at hnd hk
    have hnd2 := List.nodup_cons.mp hnd
    by_cases hp : p.1 = k
    · have hrest : k ∉ rest.map Prod.fst := hp ▸ hnd2.1
      rw [List.map_cons, if_pos hp, update_id rest k q hrest]
      simp only [List.map_cons, List.sum_cons]
      ring
    · have hkr : k ∈ rest.map Prod.fst := by
        rcases List.mem_cons.mp hk with h | h
        · exact absurd h.symm hp
        · exact h
      rw [List.map_cons, if_neg hp]
      simp only [List.map_cons, List.sum_cons]
      rw [ih hnd2.2 hkr]
      ring

lemma sum_snd_insertAdd (acc : List (String × ℚ)) (k : String) (q : ℚ)
    (hnd : (acc.map Prod.fst).Nodup) :
    ((insertAdd acc k q).map Prod.snd).sum = (acc.map Prod.snd).sum + q := by
  by_cases h : acc.any (fun p => p.1 = k) = true
  · have hk : k ∈ acc.map Prod.fst := by
      rcases List.any_eq_true.mp h with ⟨p, hp, hpk⟩
      exact List.mem_map.mpr ⟨p, hp, by simpa using hpk⟩
    rw [insertAdd, if_pos h]
    exact sum_snd_update acc k q hnd hk
  · rw [insertAdd, if_neg h, List.map_append]
    simp

lemma insertAdd_nodup (acc : List (String × ℚ)) (k : String) (q : ℚ)
    (hnd : (acc.map Prod.fst).Nodup) :
    ((insertAdd acc k q).map Prod.fst).Nodup := by
  rw [insertAdd_map_fst]
  by_cases h : acc.any (fun p => p.1 = k) = true
  · rwa [if_pos h]
  · rw [if_neg h]
    have hk : k ∉ acc.map Prod.fst := by
      intro hmem
      rcases List.mem_map.mp hmem with ⟨p, hp, hpk⟩
      exact h (List.any_eq_true.mpr ⟨p, hp, by simpa using hpk⟩)
    simp only [List.nodup_append, List.nodup_cons, List.not_mem_nil,
      not_false_iff, List.nodup_nil, and_true, true_and]
    exact ⟨hnd, by simpa [List.disjoint_singleton] using hk⟩

lemma sum_snd_accumulate (ps : List (String × ℚ)) : ∀ acc : List (String × ℚ),
    (acc.map Prod.fst).Nodup →
    ((accumulateTotals acc ps).map Prod.snd).sum
      = (acc.map Prod.snd).sum + (ps.map Prod.snd).sum := by
  induction ps with
  | nil => intro acc _; simp [accumulateTotals]
  | cons p rest ih =>
    intro acc hnd
    have hstep : accumulateTotals acc (p :: rest)
        = accumulateTotals (insertAdd acc p.1 p.2) rest := rfl
    rw [hstep, ih _ (insertAdd_nodup acc p.1 p.2 hnd),
      sum_snd_insertAdd acc p.1 p.2 hnd]
    simp only [List.map_cons, List.sum_cons]
    ring

lemma buildPeptideTotals_valid_pairs :
    ∀ (ps : List (String × ℚ)) (acc : List (String × ℚ)),
    (∀ p ∈ ps, 0 ≤ p.2) →
    (ps.map (Prod.map some PFloat.val)).foldl top3Step acc
      = ps.foldl (fun a p => insertAdd a p.1 p.2) acc := by
  intro ps
  induction ps with
  | nil => intro acc _; rfl
  | cons p rest ih =>
    intro acc hpos
    obtain ⟨k, q⟩ := p
    have hq : ¬ q < 0 := not_lt.mpr (hpos (k, q) (by simp))
    simp only [List.map_cons, List.foldl_cons, Prod.map]
    rw [show top3Step acc (some k, PFloat.val q)
        = if q < 0 then acc else insertAdd acc k q from rfl, if_neg hq]
    exact ih _ (fun p hp => hpos p (by simp [hp]))

lemma buildPeptideTotals_valid (seqs : List String) (qs : List ℚ)
    (hpos : ∀ q ∈ qs, 0 ≤ q) :
    buildPeptideTotals ((seqs.map some).zip (qs.map PFloat.val))
      = accumulateTotals [] (seqs.zip qs) := by
  rw [buildPeptideTotals, List.zip_map, accumulateTotals]
  exact buildPeptideTotals_valid_pairs (seqs.zip qs) []
    (fun p hp => hpos p.2 (List.of_mem_zip hp).2)

/-- C7: over equal-length lists of (non-null) peptide sequences and valid
(non-NaN, non-negative) intensities, `calculate_top3_peptide_intensity` first
aggregates the intensities by peptide sequence and then sums the three largest
per-sequence totals; with fewer than three distinct sequences it returns the
sum of all intensities. -/
theorem top3_peptide_intensity_spec (seqs : List String) (qs : List ℚ)
    (hne : seqs ≠ []) (hlen : seqs.length = qs.length)
    (hpos : ∀ q ∈ qs, 0 ≤ q) :
    calculate_top3_peptide_intensity (seqs.map some) (qs.map PFloat.val)
      = .val ((sortDescRat (perPeptideTotals (seqs.zip qs))).take 3).sum
    ∧ ((firstOccurrences [] seqs).length < 3 →
        calculate_top3_peptide_intensity (seqs.map some) (qs.map PFloat.val)
          = .val qs.sum) := by
  have hqne : qs ≠ [] := by
    intro h
    rw [h, List.length_nil] at hlen
    exact hne (List.length_eq_zero.mp hlen)
  have hfst : (seqs.zip qs).map Prod.fst = seqs :=
    List.map_fst_zip seqs qs (le_of_eq hlen)
  have hsnd : (seqs.zip qs).map Prod.snd = qs :=
    List.map_snd_zip seqs qs (ge_of_eq hlen)
  have htotals : buildPeptideTotals ((seqs.map some).zip (qs.map PFloat.val))
      = (firstOccurrences [] seqs).map
          (fun k => (k, sumForKey k (seqs.zip qs))) := by
    rw [buildPeptideTotals_valid seqs qs hpos,
      accumulateTotals_spec (seqs.zip qs) [] (by simp), hfst]
    simp
  have hfo_ne : firstOccurrences [] seqs ≠ [] := by
    rcases seqs with _ | ⟨s, rest⟩
    · exact absurd rfl hne
    · rw [firstOccurrences, if_neg (List.not_mem_nil s)]
      exact List.cons_ne_nil _ _
  have htne : buildPeptideTotals ((seqs.map some).zip (qs.map PFloat.val)) ≠ [] := by
    rw [htotals]
    simpa [List.map_eq_nil_iff] using hfo_ne
  have hunfold : calculate_top3_peptide_intensity (seqs.map some) (qs.map PFloat.val)
      = .val ((sortDescRat
          ((buildPeptideTotals ((seqs.map some).zip (qs.map PFloat.val))).map
            Prod.snd)).take 3).sum := by
    unfold calculate_top3_peptide_intensity
    rw [if_neg (by simp [List.isEmpty_iff, hne, hqne]),
      if_neg (by simp [hlen])]
    simp only []
    rw [if_neg (by simpa [List.isEmpty_iff] using htne)]
  have hmapsnd : (buildPeptideTotals ((seqs.map some).zip (qs.map PFloat.val))).map
      Prod.snd = perPeptideTotals (seqs.zip qs) := by
    rw [htotals, List.map_map, perPeptideTotals, hfst]
    rfl
  constructor
  · rw [hunfold, hmapsnd]
  · intro h3
    rw [hunfold, hmapsnd]
    have hperm : List.Perm (sortDescRat (perPeptideTotals (seqs.zip qs)))
        (perPeptideTotals (seqs.zip qs)) :=
      List.perm_insertionSort _ _
    have hlen3 : (sortDescRat (perPeptideTotals (seqs.zip qs))).length ≤ 3 := by
      rw [hperm.length_eq, perPeptideTotals, hfst, List.length_map]
      exact le_of_lt h3
    rw [List.take_of_length_le hlen3, hperm.sum_eq]
    have hsum : (perPeptideTotals (seqs.zip qs)).sum = qs.sum := by
      have h1 : ((accumulateTotals [] (seqs.zip qs)).map Prod.snd).sum
          = ((seqs.zip qs).map Prod.snd).sum := by
        simpa using sum_snd_accumulate (seqs.zip qs) [] (by simp)
      have h2 : (accumulateTotals [] (seqs.zip qs)).map Prod.snd
          = perPeptideTotals (seqs.zip qs) := by
        rw [accumulateTotals_spec (seqs.zip qs) [] (by simp)]
        simp only [List.map_nil, List.nil_append, List.map_map]
        rw [perPeptideTotals, hfst]
        rfl
      rw [← h2, h1, hsnd]
    rw [hsum]

/-- Witness for C7 at a concrete input: sequences A, B, A with intensities
1, 4, 5 have two distinct peptides (A with total 6, B with total 4), so the
function returns the sum of all aggregated totals, 10. -/
theorem top3_peptide_intensity_witness :
    calculate_top3_peptide_intensity (["A", "B", "A"].map some)
      ([1, 4, 5].map PFloat.val) = .val 10 := by
  have h := (top3_peptide_intensity_spec ["A", "B", "A"] [1, 4, 5]
    (by decide) (by decide) (by norm_num)).2 (by decide)
  rw [h]
  congr 1
  norm_num

/-- `pyopenms.Constants.PROTON_MASS_U`, a constant of the external peptide
library. Only the fact that it is nonzero matters below. -/
def PROTON_MASS_U : ℚ := 1.007276466879

/-- The per-peptidoform mass lookup of `_calculate_theoretical_mz_batch`
(maxquant.py lines 470-482): `safe_parse_sequence` plus `getMonoWeight` are
the external peptide model, abstracted as `parse`; a peptidoform whose parse
fails contributes mass 0.0 to `mass_map`. -/
def mass_of (parse : String → Option ℚ) (peptidoform : String) : ℚ :=
  match parse peptidoform with
  | some m => m
  | none => 0

/-- The vectorized m/z assignment of `_calculate_theoretical_mz_batch`
(maxquant.py lines 484-487): `(mass + PROTON_MASS_U * charge) / charge`
(float32 rounding abstracted). -/
def calculated_mz (parse : String → Option ℚ) (peptidoform : String)
    (precursor_charge : ℚ) : ℚ :=
  (mass_of parse peptidoform + PROTON_MASS_U * precursor_charge) / precursor_charge

/-- C1 counterexample: for a row whose peptidoform fails to parse (`parse`
returns none) and charge 2, `calculated_mz` is the proton mass, which is not
0.0 as the claim states. -/
theorem calculated_mz_counterexample :
    calculated_mz (fun _ => none) "UNPARSEABLE" 2 = PROTON_MASS_U
    ∧ PROTON_MASS_U ≠ 0 := by
  constructor
  · unfold calculated_mz mass_of
    norm_num
  · norm_num [PROTON_MASS_U]

/-- C1 (amended): a row with a parseable peptidoform gets
`(monoisotopic mass + charge * proton mass) / charge`; a row whose peptidoform
fails to parse gets mass 0.0 and hence `calculated_mz` equal to the proton
mass `PROTON_MASS_U`, not 0.0. -/
theorem calculated_mz_spec (parse : String → Option ℚ) (pf : String)
    (charge : ℚ) :
    (∀ m, parse pf = some m →
        calculated_mz parse pf charge = (m + charge * PROTON_MASS_U) / charge)
    ∧ (parse pf = none → charge ≠ 0 →
        calculated_mz parse pf charge = PROTON_MASS_U) := by
  constructor
  · intro m hm
    unfold calculated_mz mass_of
    rw [hm]
    ring_nf
  · intro hnone hch
    unfold calculated_mz mass_of
    rw [hnone]
    rw [zero_add, mul_div_assoc, div_self hch, mul_one]

/-- Witness for C1 at concrete inputs: a parse returning monoisotopic mass 100
at charge 2, and a failing parse at charge 3. -/
theorem calculated_mz_witness :
    calculated_mz (fun s => if s = "PEPTIDE" then some 100 else none)
        "PEPTIDE" 2 = (100 + 2 * PROTON_MASS_U) / 2
    ∧ calculated_mz (fun _ => none) "SEQ" 3 = PROTON_MASS_U := by
  constructor
  · exact (calculated_mz_spec (fun s => if s = "PEPTIDE" then some 100 else none)
      "PEPTIDE" 2).1 100 (by simp)
  · exact (calculated_mz_spec (fun _ => none) "SEQ" 3).2 rfl (by norm_num)

/-- A Python string, modelled as its list of characters (so that the
character-level `split`/`strip` operations can be reasoned about). -/
abbrev PyStr := List Char

/-- Python `s.split(";")`: splits at every semicolon, keeps empty substrings,
and maps the empty string to `[""]`. -/
def splitOnSemicolon : PyStr → List PyStr
  | [] => [[]]
  | c :: cs =>
    if c = ';' then [] :: splitOnSemicolon cs
    else
      match splitOnSemicolon cs with
      | t :: ts => (c :: t) :: ts
      | [] => [[c]]

/-- pandas `fillna("")` on one cell. -/
def fillna_empty (cell : Option PyStr) : PyStr := cell.getD []

/-- maxquant.py `_split_semicolon_separated_column` (lines 428-439) applied to
one cell: `series.fillna("").astype(str).str.split(";")` — a verbatim Python
`split(";")` after replacing null by the empty string; `astype(str)` is the
identity on the string cells modelled here. -/
def split_semicolon_cell (cell : Option PyStr) : List PyStr :=
  splitOnSemicolon (fillna_empty cell)

/-- The column-level `_split_semicolon_separated_column`. -/
def split_semicolon_separated_column (col : List (Option PyStr)) :
    List (List PyStr) :=
  col.map split_semicolon_cell

/-- Python `s.strip()` (whitespace at both ends). -/
def pyStrip (s : PyStr) : PyStr :=
  ((s.dropWhile Char.isWhitespace).reverse.dropWhile Char.isWhitespace).reverse

/-- maxquant.py lines 995-1007, the `gg_names` cell processing:
`[name.strip() for name in x.split(";") if name.strip()] if x else []`. -/
def split_gg_names_cell (cell : Option PyStr) : List PyStr :=
  let x := fillna_empty cell
  if x.isEmpty then []
  else ((splitOnSemicolon x).map pyStrip).filter (fun t => !t.isEmpty)

/-- Semicolon-joining of tokens (the inverse direction used to state what
"splitting a semicolon-joined string" returns). -/
def joinSemicolon : List PyStr → PyStr
  | [] => []
  | [t] => t
  | t :: ts => t ++ ';' :: joinSemicolon ts

lemma splitOnSemicolon_ne_nil (s : PyStr) : splitOnSemicolon s ≠ [] := by
  induction s with
  | nil => simp [splitOnSemicolon]
  | cons c cs ih =>
    rw [splitOnSemicolon]
    by_cases hc : c = ';'
    · simp [hc]
    · rw [if_neg hc]
      rcases hsplit : splitOnSemicolon cs with _ | ⟨t, ts⟩
      · exact absurd hsplit ih
      · simp

lemma splitOnSemicolon_no_semi (t : PyStr) (h : ';' ∉ t) :
    splitOnSemicolon t = [t] := by
  induction t with
  | nil => rfl
  | cons c cs ih =>
    have hc : c ≠ ';' := fun hv => h (hv ▸ List.mem_cons_self c cs)
    rw [splitOnSemicolon, if_neg hc, ih (fun hm => h (List.mem_cons_of_mem c hm))]

lemma splitOnSemicolon_append (t s : PyStr) (h : ';' ∉ t) :
    splitOnSemicolon (t ++ ';' :: s) = t :: splitOnSemicolon s := by
  induction t with
  | nil =>
    simp only [List.nil_append]
    rw [splitOnSemicolon, if_pos rfl]
  | cons c cs ih =>
    have hc : c ≠ ';' := fun hv => h (hv ▸ List.mem_cons_self c cs)
    rw [List.cons_append, splitOnSemicolon, if_neg hc,
      ih (fun hm => h (List.mem_cons_of_mem c hm))]

lemma splitOnSemicolon_joinSemicolon (toks : List PyStr) (hne : toks ≠ [])
    (hfree : ∀ t ∈ toks, ';' ∉ t) :
    splitOnSemicolon (joinSemicolon toks) = toks := by
  induction toks with
  | nil => exact absurd rfl hne
  | cons t ts ih =>
    rcases ts with _ | ⟨t2, rest⟩
    · exact splitOnSemicolon_no_semi t (hfree t (by simp))
    · rw [show joinSemicolon (t :: t2 :: rest) = t ++ ';' :: joinSemicolon (t2 :: rest)
        from rfl]
      rw [splitOnSemicolon_append t _ (hfree t (by simp))]
      rw [ih (List.cons_ne_nil _ _) (fun x hx => hfree x (by simp [hx]))]

/-- C4 counterexample: `_split_semicolon_separated_column` on a null cell
yields `[""]` (a one-element list holding the empty string), not the empty
list the claim states, and it does not trim whitespace: `" A; B"` splits into
`[" A", " B"]`, not `["A", "B"]`. -/
theorem split_semicolon_counterexample :
    split_semicolon_cell none = [[]]
    ∧ ([[]] : List PyStr) ≠ []
    ∧ split_semicolon_cell (some [' ', 'A', ';', ' ', 'B'])
        = [[' ', 'A'], [' ', 'B']]
    ∧ ([' ', 'A'] : PyStr) ≠ ['A'] := by
  refine ⟨rfl, by simp, by decide, by decide⟩

/-- C4 (amended): `_split_semicolon_separated_column` splits each cell on
`;` verbatim — substrings are neither trimmed nor dropped when empty: joining
semicolon-free tokens and splitting returns exactly those tokens, and a null
or empty cell yields `[""]`, a one-element list holding the empty string
(never null, never the empty list). Only the separate `gg_names` processing
trims and drops empties, mapping null/empty to `[]`. -/
theorem split_semicolon_amended :
    (∀ cell, split_semicolon_cell cell ≠ [])
    ∧ (∀ toks : List PyStr, toks ≠ [] → (∀ t ∈ toks, ';' ∉ t) →
        split_semicolon_cell (some (joinSemicolon toks)) = toks)
    ∧ split_semicolon_cell none = [[]]
    ∧ split_semicolon_cell (some []) = [[]]
    ∧ split_gg_names_cell none = []
    ∧ split_gg_names_cell (some []) = [] := by
  refine ⟨?_, ?_, rfl, rfl, rfl, rfl⟩
  · intro cell
    exact splitOnSemicolon_ne_nil (fillna_empty cell)
  · intro toks hne hfree
    exact splitOnSemicolon_joinSemicolon toks hne hfree

/-- Witness for C4 at a concrete input: the tokens `AB` and `C` joined with a
semicolon split back into exactly those tokens. -/
theorem split_semicolon_witness :
    split_semicolon_cell (some (joinSemicolon [['A', 'B'], ['C']]))
      = [['A', 'B'], ['C']] :=
  split_semicolon_amended.2.1 [['A', 'B'], ['C']] (by simp) (by decide)

/-- maxquant.py `_distribute_peptides_among_proteins` (lines 2109-2145).
Python `int(total_peptides * 0.6)` equals `3 * total_peptides / 5` rounded
down (the double-precision product `total_peptides * 0.6` never crosses an
integer boundary for realistic counts), and Python `//` and `%` are floor
division and modulo; every divisor below is positive, where Lean's Euclidean
`/` and `%` on `ℤ` agree with Python. -/
def distribute_peptides_among_proteins (proteins : List String)
    (total_peptides : ℕ) : List (String × ℤ) :=
  let ps := proteins.filter (fun p => p ≠ "")
  if ps.isEmpty then []
  else
    let protein_count := ps.length
    let main_peptide_count : ℤ := max 1 (3 * (total_peptides : ℤ) / 5)
    let remaining_peptides : ℤ := (total_peptides : ℤ) - main_peptide_count
    let other_count : ℤ := (protein_count : ℤ) - 1
    (ps.enum.map (fun ip =>
      (ip.2,
        if ip.1 = 0 then main_peptide_count
        else if 0 < other_count ∧ 0 < remaining_peptides then
          if (ip.1 : ℤ) ≤ remaining_peptides % other_count then
            remaining_peptides / other_count + 1
          else remaining_peptides / other_count
        else 0))).filter (fun e => 0 < e.2)

/-- Specification-side allocation for C9: position 0 (the anchor) gets
`max 1 ⌊0.6 t⌋`; each later position `i` gets an even share
`r / (n-1)` of the remainder `r = t - max 1 ⌊0.6 t⌋`, plus one extra unit
exactly when `i ≤ r mod (n-1)` (so earlier positions get the extras). -/
def claimedAlloc (t n i : ℕ) : ℤ :=
  if i = 0 then max 1 (3 * (t : ℤ) / 5)
  else
    ((t : ℤ) - max 1 (3 * (t : ℤ) / 5)) / ((n : ℤ) - 1)
      + (if (i : ℤ) ≤ ((t : ℤ) - max 1 (3 * (t : ℤ) / 5)) % ((n : ℤ) - 1)
         then 1 else 0)

lemma claimedAlloc_zero (t n : ℕ) :
    claimedAlloc t n 0 = max 1 (3 * (t : ℤ) / 5) := by
  simp [claimedAlloc]

lemma main_le_total (t : ℕ) (ht : 1 ≤ t) :
    max 1 (3 * (t : ℤ) / 5) ≤ (t : ℤ) := by
  omega

lemma claimedAlloc_nonneg (t n : ℕ) (ht : 1 ≤ t) (hn : 2 ≤ n) (i : ℕ) :
    0 ≤ claimedAlloc t n i := by
  unfold claimedAlloc
  by_cases hi : i = 0
  · rw [if_pos hi]; omega
  · rw [if_neg hi]
    have hr : 0 ≤ (t : ℤ) - max 1 (3 * (t : ℤ) / 5) := by
      have := main_le_total t ht
      omega
    have hk : (0:ℤ) ≤ (n : ℤ) - 1 := by omega
    have hdiv := Int.ediv_nonneg hr hk
    split <;> omega

lemma list_sum_map_add {α : Type} (l : List α) (f g : α → ℤ) :
    (l.map (fun x => f x + g x)).sum = (l.map f).sum + (l.map g).sum := by
  induction l with
  | nil => simp
  | cons a l ih =>
    simp only [List.map_cons, List.sum_cons, ih]
    ring

lemma sum_const_range (k : ℕ) (c : ℤ) :
    ((List.range k).map (fun _ => c)).sum = k * c := by
  induction k with
  | zero => simp
  | succ k ih =>
    rw [List.range_succ, List.map_append, List.sum_append, ih]
    push_cast
    simp
    ring

lemma indicator_sum (rm : ℤ) (h0 : 0 ≤ rm) : ∀ k : ℕ,
    ((List.range k).map
      (fun j : ℕ => if ((j : ℤ) + 1 ≤ rm) then (1 : ℤ) else 0)).sum
      = min rm k := by
  intro k
  induction k with
  | zero =>
    simp only [List.range_zero, List.map_nil, List.sum_nil, Nat.cast_zero]
    omega
  | succ k ih =>
    rw [List.range_succ, List.map_append, List.sum_append, ih]
    by_cases h : (k : ℤ) + 1 ≤ rm
    · rw [List.map_singleton, if_pos h, List.sum_singleton]
      push_cast
      omega
    · rw [List.map_singleton, if_neg h, List.sum_singleton]
      push_cast
      omega

lemma claimedAlloc_sum (t n : ℕ) (ht : 1 ≤ t) (hn : 2 ≤ n) :
    ((List.range n).map (claimedAlloc t n)).sum = (t : ℤ) := by
  obtain ⟨k, rfl⟩ : ∃ k, n = k + 1 := ⟨n - 1, by omega⟩
  have hk1 : 1 ≤ k := by omega
  rw [List.range_succ_eq_map, List.map_cons, List.sum_cons, List.map_map]
  have hcast : ((k + 1 : ℕ) : ℤ) - 1 = (k : ℤ) := by push_cast; ring
  have hr0 : 0 ≤ (t : ℤ) - max 1 (3 * (t : ℤ) / 5) := by
    have := main_le_total t ht
    omega
  have heach : ∀ j ∈ List.range k, (claimedAlloc t (k + 1) ∘ (· + 1)) j
      = ((t : ℤ) - max 1 (3 * (t : ℤ) / 5)) / (k : ℤ)
        + (if ((j : ℤ) + 1 ≤ ((t : ℤ) - max 1 (3 * (t : ℤ) / 5)) % (k : ℤ))
           then (1 : ℤ) else 0) := by
    intro j _
    simp only [Function.comp, claimedAlloc, Nat.succ_ne_zero, if_neg, hcast]
    push_cast
    ring_nf
  rw [List.map_congr_left heach, list_sum_map_add, sum_const_range,
    indicator_sum _ (Int.emod_nonneg _ (by omega)) k]
  have hmodlt : ((t : ℤ) - max 1 (3 * (t : ℤ) / 5)) % (k : ℤ) < (k : ℤ) :=
    Int.emod_lt_of_pos _ (by omega)
  have hmin : min (((t : ℤ) - max 1 (3 * (t : ℤ) / 5)) % (k : ℤ)) (k : ℤ)
      = ((t : ℤ) - max 1 (3 * (t : ℤ) / 5)) % (k : ℤ) := by omega
  rw [hmin, claimedAlloc_zero]
  have hdm := Int.ediv_add_emod ((t : ℤ) - max 1 (3 * (t : ℤ) / 5)) (k : ℤ)
  have hml := main_le_total t ht
  linarith

lemma sum_snd_filter_pos (l : List (String × ℤ)) (h : ∀ e ∈ l, 0 ≤ e.2) :
    ((l.filter (fun e => 0 < e.2)).map (fun e => e.2)).sum
      = (l.map (fun e => e.2)).sum := by
  induction l with
  | nil => rfl
  | cons e l ih =>
    rw [List.filter_cons]
    by_cases he : 0 < e.2
    · rw [if_pos (by simpa using he)]
      simp only [List.map_cons, List.sum_cons]
      rw [ih (fun x hx => h x (by simp [hx]))]
    · rw [if_neg (by simpa using he)]
      rw [ih (fun x hx => h x (by simp [hx]))]
      have he0 : e.2 = 0 := by
        have := h e (by simp)
        omega
      simp [he0]

lemma distribute_eq_claimed (proteins : List String) (t : ℕ)
    (hps : 2 ≤ (proteins.filter (fun p => p ≠ "")).length) (ht : 1 ≤ t) :
    distribute_peptides_among_proteins proteins t
      = ((proteins.filter (fun p => p ≠ "")).enum.map
          (fun ip => (ip.2,
            claimedAlloc t (proteins.filter (fun p => p ≠ "")).length ip.1))).filter
          (fun e => 0 < e.2) := by
  set ps := proteins.filter (fun p => p ≠ "") with hps_def
  set n := ps.length with hn_def
  have hne : ¬ ps.isEmpty = true := by
    rw [List.isEmpty_iff]
    intro h
    have hzero : n = 0 := by rw [hn_def, h]; rfl
    omega
  have hne2 : ps.isEmpty = false := by
    cases h : ps.isEmpty with
    | false => rfl
    | true => exact absurd h hne
  simp only [distribute_peptides_among_proteins, ← hps_def, hne2,
    Bool.false_eq_true, if_false]
  congr 1
  refine List.map_congr_left (fun ip hip => ?_)
  obtain ⟨i, p⟩ := ip
  have hi_lt : i < n := by
    have h1 := List.mem_enum_iff_getElem?.mp hip
    exact (List.getElem?_eq_some.mp h1).choose
  by_cases hi0 : i = 0
  · rw [hi0, claimedAlloc_zero]
    simp
  · rw [if_neg hi0]
    rw [show claimedAlloc t n i
        = ((t : ℤ) - max 1 (3 * (t : ℤ) / 5)) / ((n : ℤ) - 1)
          + (if (i : ℤ) ≤ ((t : ℤ) - max 1 (3 * (t : ℤ) / 5)) % ((n : ℤ) - 1)
             then 1 else 0) from by rw [claimedAlloc, if_neg hi0]]
    have hr0 : 0 ≤ (t : ℤ) - max 1 (3 * (t : ℤ) / 5) := by
      have := main_le_total t ht
      omega
    have hother : 0 < (n : ℤ) - 1 := by
      have : 2 ≤ n := hps
      omega
    by_cases hr : 0 < (t : ℤ) - max 1 (3 * (t : ℤ) / 5)
    · rw [if_pos ⟨hother, hr⟩]
      by_cases hcond : (i : ℤ) ≤ ((t : ℤ) - max 1 (3 * (t : ℤ) / 5)) % ((n : ℤ) - 1)
      · rw [if_pos hcond, if_pos hcond]
      · rw [if_neg hcond, if_neg hcond, add_zero]
    · have hreq : (t : ℤ) - max 1 (3 * (t : ℤ) / 5) = 0 := by omega
      rw [if_neg (by rw [hreq]; exact fun h => lt_irrefl 0 h.2)]
      rw [hreq]
      have hi1 : 1 ≤ i := Nat.one_le_iff_ne_zero.mpr hi0
      rw [Int.zero_ediv, Int.zero_emod, if_neg (by omega), add_zero]

/-- C9: for a protein group with at least two non-empty accessions and total
peptide count `t ≥ 1`, `_distribute_peptides_among_proteins` realizes the
allocation `claimedAlloc`: the anchor gets `max 1 ⌊0.6 t⌋`, the remainder is
split as evenly as possible over the others with earlier proteins getting the
extra units, zero-count entries are omitted, and the emitted counts sum to
exactly `t`. -/
theorem distribute_peptides_spec (proteins : List String) (t : ℕ)
    (hps : 2 ≤ (proteins.filter (fun p => p ≠ "")).length) (ht : 1 ≤ t) :
    distribute_peptides_among_proteins proteins t
      = ((proteins.filter (fun p => p ≠ "")).enum.map
          (fun ip => (ip.2,
            claimedAlloc t (proteins.filter (fun p => p ≠ "")).length ip.1))).filter
          (fun e => 0 < e.2)
    ∧ ((distribute_peptides_among_proteins proteins t).map (fun e => e.2)).sum
        = (t : ℤ)
    ∧ (∀ p0 rest, proteins.filter (fun p => p ≠ "") = p0 :: rest →
        ∃ tail, distribute_peptides_among_proteins proteins t
          = (p0, max 1 (3 * (t : ℤ) / 5)) :: tail)
    ∧ (∀ e ∈ distribute_peptides_among_proteins proteins t, 0 < e.2)
    ∧ (∀ i j, 1 ≤ i → i ≤ j →
        claimedAlloc t (proteins.filter (fun p => p ≠ "")).length j
            ≤ claimedAlloc t (proteins.filter (fun p => p ≠ "")).length i
        ∧ claimedAlloc t (proteins.filter (fun p => p ≠ "")).length i
            ≤ claimedAlloc t (proteins.filter (fun p => p ≠ "")).length j + 1) := by
  set ps := proteins.filter (fun p => p ≠ "") with hps_def
  set n := ps.length with hn_def
  have hn2 : 2 ≤ n := hps
  have hbridge := distribute_eq_claimed proteins t hps ht
  rw [← hps_def, ← hn_def] at hbridge
  refine ⟨hbridge, ?_, ?_, ?_, ?_⟩
  · rw [hbridge]
    have hnonneg : ∀ e ∈ ps.enum.map
        (fun ip => (ip.2, claimedAlloc t n ip.1)), 0 ≤ e.2 := by
      intro e he
      rcases List.mem_map.mp he with ⟨ip, _, rfl⟩
      exact claimedAlloc_nonneg t n ht hn2 ip.1
    rw [sum_snd_filter_pos _ hnonneg, List.map_map]
    have hcomp : ((fun e : String × ℤ => e.2) ∘
        (fun ip : ℕ × String => (ip.2, claimedAlloc t n ip.1)))
        = (claimedAlloc t n) ∘ Prod.fst := rfl
    rw [hcomp, ← List.map_map, List.enum_map_fst]
    exact claimedAlloc_sum t n ht hn2
  · intro p0 rest hps_eq
    rw [hbridge, hps_eq]
    have henum : (p0 :: rest).enum = (0, p0) :: List.enumFrom 1 rest := rfl
    rw [henum, List.map_cons, List.filter_cons]
    have hpos : 0 < claimedAlloc t n 0 := by
      rw [claimedAlloc_zero]; omega
    rw [if_pos (by simpa using hpos)]
    rw [claimedAlloc_zero]
    exact ⟨_, rfl⟩
  · intro e he
    rw [hbridge] at he
    have := List.of_mem_filter he
    simpa using this
  · intro i j hi hij
    have hi0 : i ≠ 0 := by omega
    have hj0 : j ≠ 0 := by omega
    unfold claimedAlloc
    rw [if_neg hi0, if_neg hj0]
    have hij2 : (i : ℤ) ≤ (j : ℤ) := by omega
    constructor
    · split_ifs <;> omega
    · split_ifs <;> omega

/-- Witness for C9 at a concrete input: three proteins and 10 peptides give
the anchor 6 = max(1, ⌊6⌋) and 2 each to the two others, summing to 10. -/
theorem distribute_peptides_witness :
    ((distribute_peptides_among_proteins ["A", "B", "C"] 10).map
      (fun e => e.2)).sum = 10 := by
  have h := (distribute_peptides_spec ["A", "B", "C"] 10 (by decide) (by decide)).2.1
  simpa using h

/-- The chunked read of `_parallel_process_file` (maxquant.py lines 537-541):
`pd.read_csv(input_path, chunksize=c)` yields the data rows in consecutive
chunks of `c` rows, the last chunk possibly smaller, indexed in read order.
Faithful for `c ≥ 1` (pandas rejects `chunksize=0`). -/
def chunksOf {α : Type} (c : ℕ) : List α → List (List α)
  | [] => []
  | x :: xs => (x :: xs.take (c - 1)) :: chunksOf c (xs.drop (c - 1))
termination_by l => l.length
decreasing_by simp [List.length_drop]; omega

/-- The dictionary access `processed_files[chunk_id]` used during the merge. -/
def lookupChunk {β : Type} (processed : List (ℕ × List β)) (i : ℕ) : List β :=
  ((processed.find? (fun p => p.1 = i)).map Prod.snd).getD []

/-- The merge step of `_parallel_process_file` (lines 567-580): iterate
`sorted(processed_files.keys())` in ascending order and append each chunk's
rows to the single output. -/
def mergeByIndex {β : Type} (processed : List (ℕ × List β)) : List β :=
  (((processed.map Prod.fst).insertionSort (· ≤ ·)).map
    (lookupChunk processed)).flatten

/-- `_parallel_process_file` (lines 493-586) with a row-wise per-chunk
transform `g` (the PSM/Feature/PG pipelines emit one output row per input
row): the input is cut into chunks in read order, each worker maps `g` over
its chunk, results are collected as a dictionary keyed by chunk index in an
arbitrary completion order `order`, and the merge concatenates the processed
chunks in ascending chunk-index order. -/
def parallelProcessFile {α β : Type} (g : α → β) (chunksize : ℕ)
    (order : List ℕ) (input : List α) : List β :=
  let chunks := chunksOf chunksize input
  let processed := order.map (fun i => (i, (chunks.getD i []).map g))
  mergeByIndex processed

lemma chunksOf_flatten {α : Type} (c : ℕ) (hc : 1 ≤ c) (l : List α) :
    (chunksOf c l).flatten = l := by
  have H : ∀ n (l : List α), l.length ≤ n → (chunksOf c l).flatten = l := by
    intro n
    induction n with
    | zero =>
      intro l hl
      rw [List.length_eq_zero.mp (Nat.le_zero.mp hl)]
      simp [chunksOf]
    | succ n ih =>
      intro l hl
      cases l with
      | nil => simp [chunksOf]
      | cons x xs =>
        rw [chunksOf, List.flatten_cons,
          ih (xs.drop (c - 1)) (by simp [List.length_drop]; simp at hl; omega),
          List.cons_append, List.take_append_drop]
  exact H l.length l le_rfl

lemma lookupChunk_map {β : Type} (order : List ℕ) (f : ℕ → List β) (i : ℕ)
    (hi : i ∈ order) :
    lookupChunk (order.map (fun j => (j, f j))) i = f i := by
  induction order with
  | nil => simp at hi
  | cons j rest ih =>
    rw [List.map_cons, lookupChunk]
    by_cases hj : j = i
    · subst hj
      rw [List.find?_cons, show (decide ((j, f j).1 = j)) = true by simp]
      simp
    · have hir : i ∈ rest := by
        rcases List.mem_cons.mp hi with rfl | h
        · exact absurd rfl hj
        · exact h
      rw [List.find?_cons, show (decide ((j, f j).1 = i)) = false by simp [hj]]
      exact ih hir

lemma insertionSort_perm_range (order : List ℕ) (n : ℕ)
    (hperm : order.Perm (List.range n)) :
    order.insertionSort (· ≤ ·) = List.range n :=
  List.eq_of_perm_of_sorted ((List.perm_insertionSort _ _).trans hperm)
    (List.sorted_insertionSort _ _) (List.sorted_le_range n)

lemma range_map_getD {β : Type} (L : List (List β)) :
    (List.range L.length).map (fun i => L.getD i []) = L := by
  induction L with
  | nil => simp
  | cons a L ih =>
    rw [List.length_cons, List.range_succ_eq_map, List.map_cons, List.map_map]
    have h1 : (a :: L).getD 0 [] = a := rfl
    have h2 : ((fun i => (a :: L).getD i []) ∘ (· + 1))
        = (fun i => L.getD i []) := rfl
    rw [h1, h2, ih]

lemma parallelProcessFile_eq_map {α β : Type} (g : α → β) (c : ℕ)
    (order : List ℕ) (input : List α) (hc : 1 ≤ c)
    (hperm : order.Perm (List.range (chunksOf c input).length)) :
    parallelProcessFile g c order input = input.map g := by
  simp only [parallelProcessFile, mergeByIndex]
  have hfst : (order.map
      (fun i => (i, ((chunksOf c input).getD i []).map g))).map Prod.fst
      = order := by
    rw [List.map_map,
      show (Prod.fst ∘ fun i : ℕ => (i, ((chunksOf c input).getD i []).map g))
        = id from rfl, List.map_id]
  rw [hfst, insertionSort_perm_range order _ hperm]
  have hlook : ∀ i ∈ List.range (chunksOf c input).length,
      lookupChunk (order.map
        (fun j => (j, ((chunksOf c input).getD j []).map g))) i
        = ((chunksOf c input).getD i []).map g := fun i hi =>
    lookupChunk_map order _ i (hperm.mem_iff.mpr hi)
  rw [List.map_congr_left hlook]
  rw [show (fun i => ((chunksOf c input).getD i []).map g)
      = (List.map g) ∘ (fun i => (chunksOf c input).getD i []) from rfl]
  rw [← List.map_map, range_map_getD, ← List.map_flatten,
    chunksOf_flatten c hc input]

/-- C2: for any two chunk sizes (both ≥ 1) and any two completion orders, the
chunked parallel processor produces identical output, equal to the row-wise
transform of the input in input order: chunking and completion order are not
observable, because the merge concatenates in ascending chunk-index order. -/
theorem chunking_invariant {α β : Type} (g : α → β) (c1 c2 : ℕ)
    (order1 order2 : List ℕ) (input : List α)
    (hc1 : 1 ≤ c1) (hc2 : 1 ≤ c2) (hne : c1 ≠ c2) (hin : input ≠ [])
    (hp1 : order1.Perm (List.range (chunksOf c1 input).length))
    (hp2 : order2.Perm (List.range (chunksOf c2 input).length)) :
    parallelProcessFile g c1 order1 input = parallelProcessFile g c2 order2 input
    ∧ parallelProcessFile g c1 order1 input = input.map g := by
  have h1 := parallelProcessFile_eq_map g c1 order1 input hc1 hp1
  have h2 := parallelProcessFile_eq_map g c2 order2 input hc2 hp2
  exact ⟨h1.trans h2.symm, h1⟩

/-- Witness for C2 at a concrete input: chunk sizes 2 and 3 with different
completion orders both produce the input incremented in order. -/
theorem chunking_invariant_witness :
    parallelProcessFile (fun x : ℕ => x + 1) 2 [2, 0, 1] [10, 20, 30, 40, 50]
      = parallelProcessFile (fun x : ℕ => x + 1) 3 [1, 0] [10, 20, 30, 40, 50]
    ∧ parallelProcessFile (fun x : ℕ => x + 1) 2 [2, 0, 1] [10, 20, 30, 40, 50]
      = [11, 21, 31, 41, 51] := by
  have hlen1 : (chunksOf 2 [10, 20, 30, 40, 50]).length = 3 := by
    simp [chunksOf]
  have hlen2 : (chunksOf 3 [10, 20, 30, 40, 50]).length = 2 := by
    simp [chunksOf]
  have hp1 : ([2, 0, 1] : List ℕ).Perm
      (List.range (chunksOf 2 [10, 20, 30, 40, 50]).length) := by
    rw [hlen1, show List.range 3 = [0, 1, 2] from rfl]
    exact (List.Perm.swap 0 2 [1]).trans
      (List.Perm.cons 0 (List.Perm.swap 1 2 []))
  have hp2 : ([1, 0] : List ℕ).Perm
      (List.range (chunksOf 3 [10, 20, 30, 40, 50]).length) := by
    rw [hlen2, show List.range 2 = [0, 1] from rfl]
    exact List.Perm.swap 0 1 []
  have h := chunking_invariant (fun x : ℕ => x + 1) 2 3 [2, 0, 1] [1, 0]
    [10, 20, 30, 40, 50] (by omega) (by omega) (by omega) (by simp) hp1 hp2
  exact ⟨h.1, by rw [h.2]; rfl⟩

/-- The worker-collection loop of `_parallel_process_file` (lines 548-565):
results are gathered in completion order; the first worker exception is
re-raised, aborting the collection. -/
def collectChunks {α β ε : Type} (w : ℕ → List α → Except ε (List β))
    (chunks : List (List α)) : List ℕ → Except ε (List (ℕ × List β))
  | [] => .ok []
  | i :: rest =>
    match w i (chunks.getD i []) with
    | .error e => .error e
    | .ok rows =>
      match collectChunks w chunks rest with
      | .error e => .error e
      | .ok ps => .ok ((i, rows) :: ps)

/-- Observable effects of one `_parallel_process_file` invocation. -/
structure RunEffects where
  output_written : Bool
  temp_dir_removed : Bool
deriving DecidableEq, Repr

/-- `_parallel_process_file` with fallible workers: the `try` body chunks the
input, collects worker results in completion order `order` (re-raising the
first worker exception, which skips the merge), and only on success opens the
output file and writes the merged chunks; the `finally` (lines 584-586)
removes the temporary directory on every exit path. -/
def parallelProcessFileE {α β ε : Type} (w : ℕ → List α → Except ε (List β))
    (chunksize : ℕ) (order : List ℕ) (input : List α) :
    Except ε (List β) × RunEffects :=
  let chunks := chunksOf chunksize input
  let body : Except ε (List β) × Bool :=
    match collectChunks w chunks order with
    | .error e => (.error e, false)
    | .ok processed => (.ok (mergeByIndex processed), true)
  (body.1, ⟨body.2, true⟩)

lemma collectChunks_error {α β ε : Type} (w : ℕ → List α → Except ε (List β))
    (chunks : List (List α)) :
    ∀ (order : List ℕ) (i : ℕ), i ∈ order →
    (w i (chunks.getD i [])).isOk = false →
    (collectChunks w chunks order).isOk = false := by
  intro order
  induction order with
  | nil => intro i hi; simp at hi
  | cons j rest ih =>
    intro i hi hw
    rw [collectChunks]
    cases hj : w j (chunks.getD j []) with
    | error e => simp [Except.isOk, Except.toBool]
    | ok rows =>
      have hir : i ∈ rest := by
        rcases List.mem_cons.mp hi with rfl | h
        · rw [hj] at hw
          simp [Except.isOk, Except.toBool] at hw
        · exact h
      have hrec := ih i hir hw
      cases hcol : collectChunks w chunks rest with
      | error e => simp [Except.isOk, Except.toBool]
      | ok ps =>
        rw [hcol] at hrec
        simp [Except.isOk, Except.toBool] at hrec

/-- C5: if any worker in the completion order fails, the whole run returns an
error and no output file is written; and on every run, failed or successful,
the temporary directory is removed. -/
theorem worker_failure_cleanup {α β ε : Type}
    (w : ℕ → List α → Except ε (List β)) (c : ℕ) (order : List ℕ)
    (input : List α) :
    (parallelProcessFileE w c order input).2.temp_dir_removed = true
    ∧ (∀ i ∈ order, (w i ((chunksOf c input).getD i [])).isOk = false →
        (parallelProcessFileE w c order input).1.isOk = false
        ∧ (parallelProcessFileE w c order input).2.output_written = false) := by
  constructor
  · rfl
  · intro i hi hw
    have herr := collectChunks_error w (chunksOf c input) order i hi hw
    simp only [parallelProcessFileE]
    cases hcol : collectChunks w (chunksOf c input) order with
    | error e => exact ⟨rfl, rfl⟩
    | ok ps =>
      rw [hcol] at herr
      simp [Except.isOk, Except.toBool] at herr

/-- Witness for C5 at a concrete input: chunk 1 of [0,1,2,3] fails, so the
run errors, writes no output, and still removes the temporary directory. -/
theorem worker_failure_cleanup_witness :
    (parallelProcessFileE
        (fun i l => if i = 1 then Except.error 0 else Except.ok l)
        1 [0, 1, 2, 3] [10, 20, 30, 40]).2.temp_dir_removed = true
    ∧ (parallelProcessFileE
        (fun i l => if i = 1 then Except.error 0 else Except.ok l)
        1 [0, 1, 2, 3] [10, 20, 30, 40]).1.isOk = false
    ∧ (parallelProcessFileE
        (fun i l => if i = 1 then Except.error 0 else Except.ok l)
        1 [0, 1, 2, 3] [10, 20, 30, 40]).2.output_written = false := by
  have h := worker_failure_cleanup
    (fun (i : ℕ) (l : List ℕ) => if i = 1 then Except.error (0 : ℕ) else Except.ok l)
    1 [0, 1, 2, 3] [10, 20, 30, 40]
  have h2 := h.2 1 (by decide) (by decide)
  exact ⟨h.1, h2.1, h2.2⟩

/-- A pandas cell value. List cells hold lists of strings (the only list
values this converter produces); struct cells hold integer count fields. -/
inductive Cell where
  | str (s : String)
  | int (n : ℤ)
  | float (x : PFloat)
  | listC (elems : List String)
  | structC (fields : List (String × ℤ))
  | null
deriving DecidableEq, Repr

/-- The pyarrow type of a schema field, at the granularity the compliance
code inspects it (`== pa.string()`, `== pa.int32()`, `== pa.float32()`,
`str(type).startswith("list")`, `startswith("struct")`, anything else). -/
inductive PAType where
  | string
  | int32
  | float32
  | listT
  | structT
  | other
deriving DecidableEq, Repr

/-- One field of the external schema contract: name, type, nullability. -/
structure PAField where
  name : String
  type : PAType
  nullable : Bool
deriving DecidableEq, Repr

/-- A pandas DataFrame: ordered named columns over a fixed row count. -/
structure DF where
  nrows : ℕ
  cols : List (String × List Cell)

/-- `name in df.columns`. -/
def DF.hasCol (df : DF) (n : String) : Bool :=
  df.cols.any (fun c => c.1 = n)

/-- `df[name] = scalar` for a name not yet present: appends a constant
column. -/
def DF.addConst (df : DF) (n : String) (v : Cell) : DF :=
  ⟨df.nrows, df.cols ++ [(n, List.replicate df.nrows v)]⟩

/-- Reading the column `df[name]`. -/
def DF.getCol (df : DF) (n : String) : Option (List Cell) :=
  (df.cols.find? (fun c => c.1 = n)).map Prod.snd

/-- `df[[names]]`: select and reorder columns, skipping absent names. -/
def DF.select (df : DF) (names : List String) : DF :=
  ⟨df.nrows, names.filterMap (fun n => (df.getCol n).map (fun col => (n, col)))⟩

/-- `df[name] = df[name].apply(f)` / `.astype(...)`: transform one column
elementwise, leaving the frame unchanged when the column is absent. -/
def DF.mapCol (df : DF) (n : String) (f : Cell → Cell) : DF :=
  ⟨df.nrows, df.cols.map (fun c => if c.1 = n then (c.1, c.2.map f) else c)⟩

/-- `convert_maxquant_flag` (maxquant.py lines 69-71): `1 if value == "+"
else 0`; `_convert_maxquant_flag_column` then casts to int32. -/
def convert_maxquant_flag (c : Cell) : Cell :=
  match c with
  | .str s => if s = "+" then .int 1 else .int 0
  | _ => .int 0

/-- Truncation of a rational toward zero (pandas int casts on floats). -/
def ratTrunc (q : ℚ) : ℤ := q.num.tdiv (q.den : ℤ)

/-- pandas `astype("int32")` on the cells exercised here; non-numeric cells
raise in pandas and are left unmodelled (identity). -/
def astypeInt32 (c : Cell) : Cell :=
  match c with
  | .int n => .int n
  | .float (.val q) => .int (ratTrunc q)
  | c => c

/-- pandas `astype("float32")` on numeric cells (rounding abstracted);
non-numeric cells raise in pandas and are left unmodelled (identity). -/
def astypeFloat32 (c : Cell) : Cell :=
  match c with
  | .int n => .float (.val n)
  | .float x => .float x
  | c => c

/-- pandas `astype("string")` on the cells exercised here. -/
def astypeString (c : Cell) : Cell :=
  match c with
  | .str s => .str s
  | .int n => .str (toString n)
  | c => c

/-- `pd.to_numeric(..., errors="coerce")`: numeric cells pass through,
everything else coerces to NaN (numeric-string parsing is not modelled; the
statements below only exercise numeric cells). -/
def to_numeric_coerce (c : Cell) : Cell :=
  match c with
  | .int n => .float (.val n)
  | .float x => .float x
  | _ => .float .nan

/-- `series * 60` on one cell. -/
def cellMul60 (c : Cell) : Cell :=
  match c with
  | .int n => .int (n * 60)
  | .float (.val q) => .float (.val (q * 60))
  | .float .nan => .float .nan
  | c => c

/-- `pd.to_numeric(errors="coerce").fillna(0).astype("int32")`, used for
`number_peaks`. -/
def to_numeric_fillna0_int (c : Cell) : Cell :=
  match to_numeric_coerce c with
  | .float (.val q) => .int (ratTrunc q)
  | _ => .int 0

/-- The defaults of `_ensure_psm_schema_compliance` (maxquant.py lines
819-828): string → "", int32 → 0, float32 → 0.0 (nullability ignored),
anything else — including list fields — → null. -/
def psmDefault (f : PAField) : Option Cell :=
  match f.type with
  | .string => some (.str "")
  | .int32 => some (.int 0)
  | .float32 => some (.float (.val 0))
  | _ => some .null

/-- The fill loop shared by the three compliance functions: add each schema
field missing from the frame with its default column; a `none` default (the
PG branch for unknown struct fields) leaves the field absent. -/
def fillMissing (dflt : PAField → Option Cell) (schema : List PAField)
    (df : DF) : DF :=
  schema.foldl (fun d f =>
    if d.hasCol f.name then d
    else
      match dflt f with
      | some v => d.addConst f.name v
      | none => d) df

/-- `_ensure_psm_schema_compliance` (lines 815-851): fill missing fields,
select/reorder to the schema fields, then apply the per-column casts. -/
def ensure_psm_schema_compliance (schema : List PAField) (df : DF) : DF :=
  (((((((fillMissing psmDefault schema df).select
    (schema.map (fun f => f.name))).mapCol
    "is_decoy" convert_maxquant_flag).mapCol
    "precursor_charge" astypeInt32).mapCol
    "calculated_mz" astypeFloat32).mapCol
    "observed_mz" astypeFloat32).mapCol
    "rt" (fun c => astypeFloat32 (cellMul60 c))).mapCol
    "scan" astypeString |>.mapCol
    "number_peaks" to_numeric_fillna0_int

/-- `_get_default_value_for_field` (lines 1162-1173): string → "", int32 → 0,
float32 → null when nullable else 0.0, list → null, anything else → null. -/
def get_default_value_for_field (f : PAField) : Option Cell :=
  match f.type with
  | .string => some (.str "")
  | .int32 => some (.int 0)
  | .float32 => some (if f.nullable then .null else .float (.val 0))
  | .listT => some .null
  | _ => some .null

/-- The float fields of `_convert_feature_float_fields` (lines 1135-1147). -/
def feature_float_fields : List String :=
  ["posterior_error_probability", "calculated_mz", "observed_mz", "rt",
   "predicted_rt", "ion_mobility", "start_ion_mobility", "stop_ion_mobility",
   "pg_global_qvalue", "rt_start", "rt_stop"]

/-- The retention-time fields of `_convert_rt_fields` (line 1156). -/
def rt_fields : List String := ["rt", "rt_start", "rt_stop"]

/-- `_add_missing_feature_schema_fields` (lines 1111-1116). -/
def add_missing_feature_schema_fields (schema : List PAField) (df : DF) : DF :=
  fillMissing get_default_value_for_field schema df

/-- `_reorder_feature_columns_by_schema` (lines 1118-1121). -/
def reorder_feature_columns_by_schema (schema : List PAField) (df : DF) : DF :=
  df.select (schema.map (fun f => f.name))

/-- `_convert_feature_data_types` (lines 1123-1131). -/
def convert_feature_data_types (df : DF) : DF :=
  ((df.mapCol "is_decoy" convert_maxquant_flag).mapCol
    "precursor_charge" astypeInt32).mapCol "scan" astypeString

/-- `_convert_feature_float_fields` (lines 1133-1152). -/
def convert_feature_float_fields (df : DF) : DF :=
  feature_float_fields.foldl
    (fun d n => d.mapCol n (fun c => astypeFloat32 (to_numeric_coerce c))) df

/-- `_convert_rt_fields` (lines 1154-1160): minutes times 60, exactly once
per retention-time field. -/
def convert_rt_fields (df : DF) : DF :=
  rt_fields.foldl
    (fun d n => d.mapCol n (fun c => astypeFloat32 (cellMul60 c))) df

/-- `_ensure_feature_schema_compliance` (lines 1102-1109). -/
def ensure_feature_schema_compliance (schema : List PAField) (df : DF) : DF :=
  convert_rt_fields (convert_feature_float_fields (convert_feature_data_types
    (reorder_feature_columns_by_schema schema
      (add_missing_feature_schema_fields schema df))))

/-- The defaults of `_ensure_pg_schema_compliance` (lines 2236-2258): string
→ null, int32 → 0, float32 → 1.0, list → empty list, the two struct count
fields → zeroed structs, other struct fields are left absent, anything else
→ null. -/
def pgDefault (f : PAField) : Option Cell :=
  match f.type with
  | .string => some .null
  | .int32 => some (.int 0)
  | .float32 => some (.float (.val 1))
  | .listT => some (.listC [])
  | .structT =>
      if f.name = "peptide_counts" then
        some (.structC [("unique_sequences", 0), ("total_sequences", 0)])
      else if f.name = "feature_counts" then
        some (.structC [("unique_features", 0), ("total_features", 0)])
      else none
  | .other => some .null

/-- `_ensure_pg_schema_compliance` (lines 2232-2260): fill missing fields
with the PG defaults, then select/reorder the schema columns. -/
def ensure_pg_schema_compliance (schema : List PAField) (df : DF) : DF :=
  (fillMissing pgDefault schema df).select (schema.map (fun f => f.name))

/-- The columns `_ensure_psm_schema_compliance` post-processes after the
fill (lines 832-849). -/
def psm_cast_columns : List String :=
  ["is_decoy", "precursor_charge", "calculated_mz", "observed_mz", "rt",
   "scan", "number_peaks"]

/-- The columns the feature compliance post-processes after the fill. -/
def feature_cast_columns : List String :=
  ["is_decoy", "precursor_charge", "scan"] ++ feature_float_fields ++ rt_fields

/-- Column lookup in a raw column list. -/
def findCol (cols : List (String × List Cell)) (n : String) :
    Option (List Cell) :=
  (cols.find? (fun c => c.1 = n)).map Prod.snd

lemma getCol_eq_findCol (df : DF) (n : String) :
    df.getCol n = findCol df.cols n := rfl

lemma findCol_cons_self {c : String × List Cell} {cols : List (String × List Cell)}
    {n : String} (h : c.1 = n) : findCol (c :: cols) n = some c.2 := by
  rw [findCol, List.find?_cons, show (decide (c.1 = n)) = true by simp [h]]
  rfl

lemma findCol_cons_other {c : String × List Cell} {cols : List (String × List Cell)}
    {n : String} (h : ¬ c.1 = n) : findCol (c :: cols) n = findCol cols n := by
  rw [findCol, List.find?_cons, show (decide (c.1 = n)) = false by simp [h]]
  rfl

lemma hasCol_of_getCol_some {df : DF} {n : String} {col : List Cell}
    (h : df.getCol n = some col) : df.hasCol n = true := by
  rcases df with ⟨r, cols⟩
  rw [getCol_eq_findCol] at h
  rw [DF.hasCol]
  induction cols with
  | nil => simp [findCol] at h
  | cons c cs ih =>
    by_cases hc : c.1 = n
    · simp [List.any_cons, hc]
    · rw [findCol_cons_other hc] at h
      simp [List.any_cons, ih h]

lemma findCol_append_single_self {m : String} {col : List Cell} :
    ∀ cols : List (String × List Cell), (∀ c ∈ cols, ¬ c.1 = m) →
    findCol (cols ++ [(m, col)]) m = some col := by
  intro cols
  induction cols with
  | nil =>
    intro _
    rw [List.nil_append, findCol_cons_self rfl]
  | cons c cs ih =>
    intro h
    rw [List.cons_append, findCol_cons_other (h c (by simp))]
    exact ih (fun x hx => h x (by simp [hx]))

lemma findCol_append_single_other {m n : String} {col : List Cell}
    (hnm : ¬ m = n) : ∀ cols : List (String × List Cell),
    findCol (cols ++ [(m, col)]) n = findCol cols n := by
  intro cols
  induction cols with
  | nil =>
    rw [List.nil_append, findCol_cons_other hnm]
  | cons c cs ih =>
    by_cases hc : c.1 = n
    · rw [List.cons_append, findCol_cons_self hc, findCol_cons_self hc]
    · rw [List.cons_append, findCol_cons_other hc, findCol_cons_other hc]
      exact ih

lemma getCol_addConst_self {df : DF} {m : String} (v : Cell)
    (h : ¬ df.hasCol m = true) :
    (df.addConst m v).getCol m = some (List.replicate df.nrows v) := by
  rw [getCol_eq_findCol]
  refine findCol_append_single_self df.cols (fun c hc hcm => ?_)
  exact h (by rw [DF.hasCol]; exact List.any_eq_true.mpr ⟨c, hc, by simp [hcm]⟩)

lemma getCol_addConst_other {df : DF} {m n : String} (v : Cell)
    (h : n ≠ m) : (df.addConst m v).getCol n = df.getCol n := by
  rw [getCol_eq_findCol, getCol_eq_findCol]
  exact findCol_append_single_other (fun e => h e.symm) df.cols

lemma hasCol_addConst {df : DF} {m n : String} (v : Cell) :
    (df.addConst m v).hasCol n = (df.hasCol n || decide (m = n)) := by
  rcases df with ⟨r, cols⟩
  simp [DF.addConst, DF.hasCol, List.any_append]

lemma nrows_addConst (df : DF) (m : String) (v : Cell) :
    (df.addConst m v).nrows = df.nrows := rfl

lemma fillMissing_nrows (dflt : PAField → Option Cell) :
    ∀ (schema : List PAField) (df : DF),
    (fillMissing dflt schema df).nrows = df.nrows := by
  intro schema
  induction schema with
  | nil => intro df; rfl
  | cons g rest ih =>
    intro df
    rw [fillMissing, List.foldl_cons]
    by_cases hg : df.hasCol g.name = true
    · rw [if_pos hg]; exact ih df
    · rw [if_neg hg]
      cases dflt g with
      | some v => exact ih (df.addConst g.name v)
      | none => exact ih df

lemma fillMissing_preserves_getCol (dflt : PAField → Option Cell) :
    ∀ (schema : List PAField) (df : DF) (n : String), df.hasCol n = true →
    (fillMissing dflt schema df).getCol n = df.getCol n := by
  intro schema
  induction schema with
  | nil => intro df n _; rfl
  | cons g rest ih =>
    intro df n hn
    rw [fillMissing, List.foldl_cons]
    by_cases hg : df.hasCol g.name = true
    · rw [if_pos hg]; exact ih df n hn
    · rw [if_neg hg]
      cases dflt g with
      | some v =>
        have hne : n ≠ g.name := by
          intro he; rw [he] at hn; exact hg hn
        have hhc : (df.addConst g.name v).hasCol n = true := by
          rw [hasCol_addConst]; simp [hn]
        show (fillMissing dflt rest (df.addConst g.name v)).getCol n
          = df.getCol n
        rw [ih (df.addConst g.name v) n hhc, getCol_addConst_other v hne]
      | none => exact ih df n hn

lemma getCol_fillMissing_of_missing (dflt : PAField → Option Cell) :
    ∀ (schema : List PAField) (df : DF) (f : PAField) (v : Cell),
    (schema.map PAField.name).Nodup → f ∈ schema →
    ¬ df.hasCol f.name = true → dflt f = some v →
    (fillMissing dflt schema df).getCol f.name
      = some (List.replicate df.nrows v) := by
  intro schema
  induction schema with
  | nil => intro df f v _ hf; simp at hf
  | cons g rest ih =>
    intro df f v hnd hf hmiss hdflt
    rw [List.map_cons, List.nodup_cons] at hnd
    rw [fillMissing, List.foldl_cons]
    rcases List.mem_cons.mp hf with rfl | hfr
    · rw [if_neg hmiss, hdflt]
      have hhc : (df.addConst f.name v).hasCol f.name = true := by
        rw [hasCol_addConst]; simp
      show (fillMissing dflt rest (df.addConst f.name v)).getCol f.name
        = some (List.replicate df.nrows v)
      rw [fillMissing_preserves_getCol dflt rest _ _ hhc,
        getCol_addConst_self v hmiss]
    · have hgf : g.name ≠ f.name := by
        intro he
        exact hnd.1 (he ▸ List.mem_map.mpr ⟨f, hfr, rfl⟩)
      by_cases hg : df.hasCol g.name = true
      · rw [if_pos hg]
        exact ih df f v hnd.2 hfr hmiss hdflt
      · rw [if_neg hg]
        cases hdg : dflt g with
        | some w =>
          have hmiss2 : ¬ (df.addConst g.name w).hasCol f.name = true := by
            rw [hasCol_addConst]
            simp only [Bool.or_eq_true, decide_eq_true_eq]
            rintro (h | h)
            · exact hmiss h
            · exact hgf h
          have hrec := ih (df.addConst g.name w) f v hnd.2 hfr hmiss2 hdflt
          show (fillMissing dflt rest (df.addConst g.name w)).getCol f.name
            = some (List.replicate df.nrows v)
          rw [hrec, nrows_addConst]
        | none => exact ih df f v hnd.2 hfr hmiss hdflt

lemma select_cols (df : DF) (names : List String) :
    (df.select names).cols
      = names.filterMap (fun n => (df.getCol n).map (fun col => (n, col))) :=
  rfl

lemma select_cols_cons_none {df : DF} {m : String} (hm : df.getCol m = none)
    (rest : List String) :
    (df.select (m :: rest)).cols = (df.select rest).cols := by
  rw [select_cols, select_cols, List.filterMap_cons, hm]
  rfl

lemma select_cols_cons_some {df : DF} {m : String} {col : List Cell}
    (hm : df.getCol m = some col) (rest : List String) :
    (df.select (m :: rest)).cols = (m, col) :: (df.select rest).cols := by
  rw [select_cols, select_cols, List.filterMap_cons, hm]
  rfl

lemma getCol_select_none {df : DF} {n : String} (h : df.getCol n = none) :
    ∀ names : List String, (df.select names).getCol n = none := by
  intro names
  induction names with
  | nil => rfl
  | cons m rest ih =>
    cases hm : df.getCol m with
    | none =>
      rw [getCol_eq_findCol, select_cols_cons_none hm rest, ← getCol_eq_findCol]
      exact ih
    | some col =>
      have hmn : ¬ (m, col).1 = n := by
        intro he
        simp only at he
        rw [he, h] at hm
        exact Option.noConfusion hm
      rw [getCol_eq_findCol, select_cols_cons_some hm rest,
        findCol_cons_other hmn, ← getCol_eq_findCol]
      exact ih

lemma getCol_select_mem {df : DF} {n : String} :
    ∀ names : List String, n ∈ names →
    (df.select names).getCol n = df.getCol n := by
  intro names
  induction names with
  | nil => intro h; simp at h
  | cons m rest ih =>
    intro hmem
    by_cases hm : m = n
    · subst hm
      cases hc : df.getCol m with
      | none =>
        have h1 : (df.select (m :: rest)).getCol m = (df.select rest).getCol m := by
          rw [getCol_eq_findCol, getCol_eq_findCol, select_cols_cons_none hc rest]
        rw [h1]
        exact getCol_select_none hc rest
      | some col =>
        have h1 : (df.select (m :: rest)).getCol m = some col := by
          rw [getCol_eq_findCol, select_cols_cons_some hc rest,
            findCol_cons_self rfl]
        rw [h1]
    · have hr : n ∈ rest := by
        rcases List.mem_cons.mp hmem with rfl | h
        · exact absurd rfl hm
        · exact h
      cases hc : df.getCol m with
      | none =>
        have h1 : (df.select (m :: rest)).getCol n = (df.select rest).getCol n := by
          rw [getCol_eq_findCol, getCol_eq_findCol, select_cols_cons_none hc rest]
        rw [h1]
        exact ih hr
      | some col =>
        have h1 : (df.select (m :: rest)).getCol n = (df.select rest).getCol n := by
          rw [getCol_eq_findCol, getCol_eq_findCol, select_cols_cons_some hc rest,
            findCol_cons_other (by simpa using hm)]
        rw [h1]
        exact ih hr

lemma nrows_select (df : DF) (names : List String) :
    (df.select names).nrows = df.nrows := rfl

lemma findCol_mapCols_self (m : String) (f : Cell → Cell) :
    ∀ cols : List (String × List Cell),
    findCol (cols.map (fun c => if c.1 = m then (c.1, c.2.map f) else c)) m
      = (findCol cols m).map (List.map f) := by
  intro cols
  induction cols with
  | nil => rfl
  | cons c cs ih =>
    by_cases hc : c.1 = m
    · rw [List.map_cons, if_pos hc, findCol_cons_self (by simpa using hc),
        findCol_cons_self hc]
      rfl
    · rw [List.map_cons, if_neg hc, findCol_cons_other hc,
        findCol_cons_other hc]
      exact ih

lemma findCol_mapCols_other {m n : String} (f : Cell → Cell) (h : n ≠ m) :
    ∀ cols : List (String × List Cell),
    findCol (cols.map (fun c => if c.1 = m then (c.1, c.2.map f) else c)) n
      = findCol cols n := by
  intro cols
  induction cols with
  | nil => rfl
  | cons c cs ih =>
    by_cases hcm : c.1 = m
    · have hcn : ¬ c.1 = n := by rw [hcm]; exact fun e => h e.symm
      rw [List.map_cons, if_pos hcm, findCol_cons_other (by simpa using hcn),
        findCol_cons_other hcn]
      exact ih
    · by_cases hcn : c.1 = n
      · rw [List.map_cons, if_neg hcm, findCol_cons_self hcn,
          findCol_cons_self hcn]
      · rw [List.map_cons, if_neg hcm, findCol_cons_other hcn,
          findCol_cons_other hcn]
        exact ih

lemma getCol_mapCol_self (df : DF) (m : String) (f : Cell → Cell) :
    (df.mapCol m f).getCol m = (df.getCol m).map (List.map f) := by
  rw [getCol_eq_findCol, getCol_eq_findCol]
  exact findCol_mapCols_self m f df.cols

lemma getCol_mapCol_other (df : DF) {m n : String} (f : Cell → Cell)
    (h : n ≠ m) : (df.mapCol m f).getCol n = df.getCol n := by
  rw [getCol_eq_findCol, getCol_eq_findCol]
  exact findCol_mapCols_other f h df.cols

lemma getCol_foldl_mapCol_not_mem {names : List String} {n : String}
    (f : Cell → Cell) (h : n ∉ names) : ∀ df : DF,
    ((names.foldl (fun d m => d.mapCol m f) df)).getCol n = df.getCol n := by
  induction names with
  | nil => intro df; rfl
  | cons m rest ih =>
    intro df
    rw [List.foldl_cons]
    have hnm : n ≠ m := fun he => h (he ▸ List.mem_cons_self m rest)
    rw [ih (fun hr => h (List.mem_cons_of_mem m hr)) (df.mapCol m f),
      getCol_mapCol_other df f hnm]

lemma getCol_foldl_mapCol_mem {names : List String} {n : String}
    (f : Cell → Cell) (hnd : names.Nodup) (hmem : n ∈ names) : ∀ df : DF,
    ((names.foldl (fun d m => d.mapCol m f) df)).getCol n
      = (df.getCol n).map (List.map f) := by
  induction names with
  | nil => simp at hmem
  | cons m rest ih =>
    intro df
    rw [List.foldl_cons]
    rw [List.nodup_cons] at hnd
    by_cases hm : n = m
    · subst hm
      rw [getCol_foldl_mapCol_not_mem f hnd.1 (df.mapCol n f),
        getCol_mapCol_self]
    · have hr : n ∈ rest := by
        rcases List.mem_cons.mp hmem with rfl | h
        · exact absurd rfl hm
        · exact h
      rw [ih hnd.2 hr (df.mapCol m f), getCol_mapCol_other df f hm]

lemma psm_compliance_missing (schema : List PAField) (df : DF) (f : PAField)
    (v : Cell) (hnd : (schema.map PAField.name).Nodup) (hmem : f ∈ schema)
    (hmiss : ¬ df.hasCol f.name = true) (hcast : f.name ∉ psm_cast_columns)
    (hdflt : psmDefault f = some v) :
    (ensure_psm_schema_compliance schema df).getCol f.name
      = some (List.replicate df.nrows v) := by
  have h1 := getCol_fillMissing_of_missing psmDefault schema df f v hnd hmem
    hmiss hdflt
  have hnames : f.name ∈ schema.map PAField.name :=
    List.mem_map.mpr ⟨f, hmem, rfl⟩
  simp only [psm_cast_columns, List.mem_cons, List.not_mem_nil, or_false,
    not_or] at hcast
  obtain ⟨h_d, h_c, h_cm, h_om, h_rt, h_sc, h_np⟩ := hcast
  unfold ensure_psm_schema_compliance
  rw [getCol_mapCol_other _ _ h_np, getCol_mapCol_other _ _ h_sc,
    getCol_mapCol_other _ _ h_rt, getCol_mapCol_other _ _ h_om,
    getCol_mapCol_other _ _ h_cm, getCol_mapCol_other _ _ h_c,
    getCol_mapCol_other _ _ h_d, getCol_select_mem _ hnames, h1]

lemma feature_compliance_missing (schema : List PAField) (df : DF)
    (f : PAField) (v : Cell) (hnd : (schema.map PAField.name).Nodup)
    (hmem : f ∈ schema) (hmiss : ¬ df.hasCol f.name = true)
    (hcast : f.name ∉ feature_cast_columns)
    (hdflt : get_default_value_for_field f = some v) :
    (ensure_feature_schema_compliance schema df).getCol f.name
      = some (List.replicate df.nrows v) := by
  have h1 := getCol_fillMissing_of_missing get_default_value_for_field schema
    df f v hnd hmem hmiss hdflt
  have hnames : f.name ∈ schema.map PAField.name :=
    List.mem_map.mpr ⟨f, hmem, rfl⟩
  have hff : f.name ∉ feature_float_fields := by
    intro h
    exact hcast (by simp [feature_cast_columns, h])
  have hrt : f.name ∉ rt_fields := by
    intro h
    exact hcast (by simp [feature_cast_columns, h])
  have h_d : f.name ≠ "is_decoy" := by
    intro h
    exact hcast (by simp [feature_cast_columns, h])
  have h_c : f.name ≠ "precursor_charge" := by
    intro h
    exact hcast (by simp [feature_cast_columns, h])
  have h_sc : f.name ≠ "scan" := by
    intro h
    exact hcast (by simp [feature_cast_columns, h])
  unfold ensure_feature_schema_compliance convert_rt_fields
    convert_feature_float_fields convert_feature_data_types
    reorder_feature_columns_by_schema add_missing_feature_schema_fields
  rw [getCol_foldl_mapCol_not_mem _ hrt, getCol_foldl_mapCol_not_mem _ hff,
    getCol_mapCol_other _ _ h_sc, getCol_mapCol_other _ _ h_c,
    getCol_mapCol_other _ _ h_d, getCol_select_mem _ hnames, h1]

lemma pg_compliance_missing (schema : List PAField) (df : DF) (f : PAField)
    (v : Cell) (hnd : (schema.map PAField.name).Nodup) (hmem : f ∈ schema)
    (hmiss : ¬ df.hasCol f.name = true) (hdflt : pgDefault f = some v) :
    (ensure_pg_schema_compliance schema df).getCol f.name
      = some (List.replicate df.nrows v) := by
  have h1 := getCol_fillMissing_of_missing pgDefault schema df f v hnd hmem
    hmiss hdflt
  have hnames : f.name ∈ schema.map PAField.name :=
    List.mem_map.mpr ⟨f, hmem, rfl⟩
  unfold ensure_pg_schema_compliance
  rw [getCol_select_mem _ hnames, h1]

/-- C3 counterexample: `_ensure_pg_schema_compliance` fills a missing
non-nullable string column with nulls, not with empty strings as the claim
states for every record kind. -/
theorem schema_defaults_counterexample :
    (ensure_pg_schema_compliance [⟨"protein_name", .string, false⟩]
        ⟨2, []⟩).getCol "protein_name" = some [Cell.null, Cell.null]
    ∧ Cell.null ≠ Cell.str "" := by
  refine ⟨by rfl, by decide⟩

/-- C3 (amended): the three compliance steps fill missing schema fields with
kind-specific defaults. PSM: "" for string, 0 for int32, 0.0 for float32
(nullability ignored), null for list fields. Feature: "" for string, 0 for
int32, null for nullable float32 and 0.0 otherwise, null for list fields.
PG: null for string, 0 for int32, 1.0 for float32, and the empty list for
list fields. (Stated for fields outside each kind's cast-column lists, whose
values are post-processed.) -/
theorem schema_defaults_amended :
    (∀ (schema : List PAField) (df : DF) (f : PAField),
        (schema.map PAField.name).Nodup → f ∈ schema →
        ¬ df.hasCol f.name = true → f.name ∉ psm_cast_columns →
        (f.type = .string →
          (ensure_psm_schema_compliance schema df).getCol f.name
            = some (List.replicate df.nrows (Cell.str "")))
        ∧ (f.type = .int32 →
          (ensure_psm_schema_compliance schema df).getCol f.name
            = some (List.replicate df.nrows (Cell.int 0)))
        ∧ (f.type = .float32 →
          (ensure_psm_schema_compliance schema df).getCol f.name
            = some (List.replicate df.nrows (Cell.float (.val 0))))
        ∧ (f.type = .listT →
          (ensure_psm_schema_compliance schema df).getCol f.name
            = some (List.replicate df.nrows Cell.null)))
    ∧ (∀ (schema : List PAField) (df : DF) (f : PAField),
        (schema.map PAField.name).Nodup → f ∈ schema →
        ¬ df.hasCol f.name = true → f.name ∉ feature_cast_columns →
        (f.type = .string →
          (ensure_feature_schema_compliance schema df).getCol f.name
            = some (List.replicate df.nrows (Cell.str "")))
        ∧ (f.type = .int32 →
          (ensure_feature_schema_compliance schema df).getCol f.name
            = some (List.replicate df.nrows (Cell.int 0)))
        ∧ (f.type = .float32 →
          (ensure_feature_schema_compliance schema df).getCol f.name
            = some (List.replicate df.nrows
                (if f.nullable then Cell.null else Cell.float (.val 0))))
        ∧ (f.type = .listT →
          (ensure_feature_schema_compliance schema df).getCol f.name
            = some (List.replicate df.nrows Cell.null)))
    ∧ (∀ (schema : List PAField) (df : DF) (f : PAField),
        (schema.map PAField.name).Nodup → f ∈ schema →
        ¬ df.hasCol f.name = true →
        (f.type = .string →
          (ensure_pg_schema_compliance schema df).getCol f.name
            = some (List.replicate df.nrows Cell.null))
        ∧ (f.type = .int32 →
          (ensure_pg_schema_compliance schema df).getCol f.name
            = some (List.replicate df.nrows (Cell.int 0)))
        ∧ (f.type = .float32 →
          (ensure_pg_schema_compliance schema df).getCol f.name
            = some (List.replicate df.nrows (Cell.float (.val 1))))
        ∧ (f.type = .listT →
          (ensure_pg_schema_compliance schema df).getCol f.name
            = some (List.replicate df.nrows (Cell.listC [])))) := by
  refine ⟨?_, ?_, ?_⟩
  · intro schema df f hnd hmem hmiss hcast
    refine ⟨fun ht => ?_, fun ht => ?_, fun ht => ?_, fun ht => ?_⟩ <;>
      exact psm_compliance_missing schema df f _ hnd hmem hmiss hcast
        (by rw [psmDefault, ht])
  · intro schema df f hnd hmem hmiss hcast
    refine ⟨fun ht => ?_, fun ht => ?_, fun ht => ?_, fun ht => ?_⟩ <;>
      exact feature_compliance_missing schema df f _ hnd hmem hmiss hcast
        (by rw [get_default_value_for_field, ht])
  · intro schema df f hnd hmem hmiss
    refine ⟨fun ht => ?_, fun ht => ?_, fun ht => ?_, fun ht => ?_⟩ <;>
      exact pg_compliance_missing schema df f _ hnd hmem hmiss
        (by rw [pgDefault, ht])

/-- Witness for C3 at concrete inputs: a missing string field gets empty
strings in the PSM step, a missing int32 field gets zeros in the feature
step, and a missing list field gets empty lists in the PG step. -/
theorem schema_defaults_witness :
    (ensure_psm_schema_compliance
        [⟨"sequence", .string, false⟩, ⟨"protein_accessions", .listT, true⟩]
        ⟨2, [("peptidoform", [Cell.str "A", Cell.str "B"])]⟩).getCol "sequence"
      = some [Cell.str "", Cell.str ""]
    ∧ (ensure_feature_schema_compliance [⟨"charge", .int32, false⟩]
        ⟨1, []⟩).getCol "charge" = some [Cell.int 0]
    ∧ (ensure_pg_schema_compliance [⟨"gg_accessions", .listT, true⟩]
        ⟨2, []⟩).getCol "gg_accessions"
      = some [Cell.listC [], Cell.listC []] := by
  refine ⟨?_, ?_, ?_⟩
  · have h := (schema_defaults_amended.1
      [⟨"sequence", .string, false⟩, ⟨"protein_accessions", .listT, true⟩]
      ⟨2, [("peptidoform", [Cell.str "A", Cell.str "B"])]⟩
      ⟨"sequence", .string, false⟩ (by decide) (by decide) (by decide)
      (by decide)).1 rfl
    simpa using h
  · have h := (schema_defaults_amended.2.1 [⟨"charge", .int32, false⟩]
      ⟨1, []⟩ ⟨"charge", .int32, false⟩ (by decide) (by decide) (by decide)
      (by decide)).2.1 rfl
    simpa using h
  · have h := (schema_defaults_amended.2.2 [⟨"gg_accessions", .listT, true⟩]
      ⟨2, []⟩ ⟨"gg_accessions", .listT, true⟩ (by decide) (by decide)
      (by decide)).2.2.2 rfl
    simpa using h

/-- C8: a retention-time value of `v` minutes present in the source appears
in the compliance output as `v * 60` seconds, the multiplication applied
exactly once — for the PSM step on `rt` and for the feature step on each of
`rt`, `rt_start`, `rt_stop`. -/
theorem rt_minutes_to_seconds :
    (∀ (schema : List PAField) (df : DF) (vs : List ℚ),
        "rt" ∈ schema.map PAField.name →
        df.getCol "rt" = some (vs.map (fun q => Cell.float (.val q))) →
        (ensure_psm_schema_compliance schema df).getCol "rt"
          = some (vs.map (fun q => Cell.float (.val (q * 60)))))
    ∧ (∀ (schema : List PAField) (df : DF) (vs : List ℚ) (name : String),
        name ∈ rt_fields → name ∈ schema.map PAField.name →
        df.getCol name = some (vs.map (fun q => Cell.float (.val q))) →
        (ensure_feature_schema_compliance schema df).getCol name
          = some (vs.map (fun q => Cell.float (.val (q * 60))))) := by
  constructor
  · intro schema df vs hschema hcol
    have hhas : df.hasCol "rt" = true := hasCol_of_getCol_some hcol
    unfold ensure_psm_schema_compliance
    rw [getCol_mapCol_other _ _ (by decide : ("rt" : String) ≠ "number_peaks"),
      getCol_mapCol_other _ _ (by decide : ("rt" : String) ≠ "scan"),
      getCol_mapCol_self,
      getCol_mapCol_other _ _ (by decide : ("rt" : String) ≠ "observed_mz"),
      getCol_mapCol_other _ _ (by decide : ("rt" : String) ≠ "calculated_mz"),
      getCol_mapCol_other _ _ (by decide : ("rt" : String) ≠ "precursor_charge"),
      getCol_mapCol_other _ _ (by decide : ("rt" : String) ≠ "is_decoy"),
      getCol_select_mem _ hschema,
      fillMissing_preserves_getCol psmDefault schema df "rt" hhas, hcol]
    show some ((vs.map (fun q => Cell.float (.val q))).map
        (fun c => astypeFloat32 (cellMul60 c))) = _
    rw [List.map_map]
    rfl
  · intro schema df vs name hrt hschema hcol
    have hhas : df.hasCol name = true := hasCol_of_getCol_some hcol
    have hrtmem : name ∈ rt_fields := hrt
    have hffmem : name ∈ feature_float_fields := by
      rcases (by simpa [rt_fields] using hrt :
        name = "rt" ∨ name = "rt_start" ∨ name = "rt_stop") with rfl | rfl | rfl <;>
        decide
    have h_d : name ≠ "is_decoy" := by
      rcases (by simpa [rt_fields] using hrt :
        name = "rt" ∨ name = "rt_start" ∨ name = "rt_stop") with rfl | rfl | rfl <;>
        decide
    have h_c : name ≠ "precursor_charge" := by
      rcases (by simpa [rt_fields] using hrt :
        name = "rt" ∨ name = "rt_start" ∨ name = "rt_stop") with rfl | rfl | rfl <;>
        decide
    have h_sc : name ≠ "scan" := by
      rcases (by simpa [rt_fields] using hrt :
        name = "rt" ∨ name = "rt_start" ∨ name = "rt_stop") with rfl | rfl | rfl <;>
        decide
    unfold ensure_feature_schema_compliance convert_rt_fields
      convert_feature_float_fields convert_feature_data_types
      reorder_feature_columns_by_schema add_missing_feature_schema_fields
    rw [getCol_foldl_mapCol_mem _ (by decide) hrtmem,
      getCol_foldl_mapCol_mem _ (by decide) hffmem,
      getCol_mapCol_other _ _ h_sc, getCol_mapCol_other _ _ h_c,
      getCol_mapCol_other _ _ h_d, getCol_select_mem _ hschema,
      fillMissing_preserves_getCol get_default_value_for_field schema df
        name hhas, hcol]
    show some (((vs.map (fun q => Cell.float (.val q))).map
        (fun c => astypeFloat32 (to_numeric_coerce c))).map
        (fun c => astypeFloat32 (cellMul60 c))) = _
    rw [List.map_map, List.map_map]
    rfl

/-- Witness for C8 at a concrete input: an rt column of 1.5 and 2 minutes
becomes 90 and 120 seconds through both the PSM and the feature step. -/
theorem rt_minutes_to_seconds_witness :
    (ensure_psm_schema_compliance [⟨"rt", .float32, false⟩]
        ⟨2, [("rt", [Cell.float (.val (3/2)), Cell.float (.val 2)])]⟩).getCol
        "rt"
      = some [Cell.float (.val 90), Cell.float (.val 120)]
    ∧ (ensure_feature_schema_compliance [⟨"rt_start", .float32, true⟩]
        ⟨1, [("rt_start", [Cell.float (.val 2)])]⟩).getCol "rt_start"
      = some [Cell.float (.val 120)] := by
  constructor
  · have h := rt_minutes_to_seconds.1 [⟨"rt", .float32, false⟩]
      ⟨2, [("rt", [Cell.float (.val (3/2)), Cell.float (.val 2)])]⟩
      [3/2, 2] (by decide) (by rfl)
    rw [h]
    norm_num
  · have h := rt_minutes_to_seconds.2 [⟨"rt_start", .float32, true⟩]
      ⟨1, [("rt_start", [Cell.float (.val 2)])]⟩ [2] "rt_start"
      (by decide) (by decide) (by rfl)
    rw [h]
    norm_num

end Qpx
